import Mathlib

/-!
Wiener-filter noise reduction: embedding of `noise_reduction.c` and `main.c`.

Buffers reached through a `float *` are functions from the element index to the
value stored there; the float arithmetic is read as exact rational arithmetic.
Index arithmetic on `size_t` is taken modulo `2 ^ 64` wherever the C expression
can wrap.  Every `for` loop of the source is an instance of `for_loop`.
-/

namespace Denoise

/-- A buffer reached through a `float *`: the value stored at each element index. -/
abbrev Buf := Nat → ℚ

/-- Number of values of the C type `size_t` (64-bit target). -/
def SIZE_MOD : Nat := 2 ^ 64

/-- Subtraction of two `size_t` values, wrapping modulo `2 ^ 64`. -/
def size_sub (a b : Nat) : Nat := (a + SIZE_MOD - b) % SIZE_MOD

/-- Addition of two `size_t` values, wrapping modulo `2 ^ 64`. -/
def size_add (a b : Nat) : Nat := (a + b) % SIZE_MOD

/-- Conversion of a `size_t` value to `int`: the low 32 bits, read as two's complement. -/
def to_int (x : Nat) : Int :=
  if x % 2 ^ 32 < 2 ^ 31 then ((x % 2 ^ 32 : Nat) : Int) else ((x % 2 ^ 32 : Nat) : Int) - 2 ^ 32

/-- The index expression `abs(i - row_index)` of `vecdot_with_toeplitz_row`: the `size_t`
difference wraps, is converted to `int`, and `abs` is taken. -/
def abs_index (i row_index : Nat) : Nat := Int.natAbs (to_int (size_sub i row_index))

/-- Runs `body lo`, `body (lo + 1)`, ... for `count` consecutive values of the loop variable. -/
def loop {σ : Type} (body : Nat → σ → σ) : Nat → Nat → σ → σ
  | _, 0, st => st
  | lo, count + 1, st => loop body (lo + 1) count (body lo st)

/-- The C loop `for (size_t i = lo; i < hi; i++) body`. -/
def for_loop {σ : Type} (lo hi : Nat) (body : Nat → σ → σ) (st : σ) : σ :=
  loop body lo (hi - lo) st

/-- Embedding of `estimate_autocorrelation(out, max_lag, data, size)`; returns the final
contents of `out`. -/
def estimate_autocorrelation (out : Buf) (max_lag : Nat) (data : Buf) (size : Nat) : Buf :=
  let out1 := for_loop 0 (size_sub size max_lag) (fun i out =>
    for_loop 0 max_lag (fun lag out =>
      Function.update out lag (out lag + data i * data (i + lag))) out) out
  let norm_factor : ℚ := 1 / ((size_sub size max_lag : Nat) : ℚ)
  for_loop 0 max_lag (fun i out => Function.update out i (out i * norm_factor)) out1

/-- Embedding of `vecdot_with_toeplitz_row(autocorr, vec, row_index, row_length)`. -/
def vecdot_with_toeplitz_row (autocorr vec : Buf) (row_index row_length : Nat) : ℚ :=
  for_loop 0 row_length (fun i out => out + autocorr (abs_index i row_index) * vec i) 0

/-- The function-local statics `vec` and `vec_size` of `calc_wiener_coeffs`. -/
structure solver_static where
  vec : Buf
  vec_size : Nat

/-- The statics before the first call: no scratch vector allocated (`vec_size = 0`). -/
def solver_static_init : solver_static := { vec := fun _ => 0, vec_size := 0 }

/-- The value `forward_error` computed at order `i` from the scratch vector on entry to
that iteration. -/
def forward_error_of (signal_corr vec : Buf) (i : Nat) : ℚ :=
  vecdot_with_toeplitz_row signal_corr (Function.update vec i 0) i (i + 1)

/-- The in-place loop over `j < half_size` that rewrites `vec[j]` and `vec[i - j]`. -/
def update_vec (forward_error : ℚ) (i : Nat) (vec : Buf) : Buf :=
  let error_mult := forward_error * forward_error
  let half_size := i / 2 + 1
  for_loop 0 half_size (fun j vec =>
    let val_upper := 1 / (1 - error_mult) * vec j - forward_error / (1 - error_mult) * vec (i - j)
    let val_lower := 1 / (1 - error_mult) * vec (i - j) - forward_error / (1 - error_mult) * vec j
    Function.update (Function.update vec j val_upper) (i - j) val_lower) vec

/-- One iteration (order `i`) of the outer loop of `calc_wiener_coeffs`, acting on the pair
`(vec, coeffs)`. -/
def wiener_order (signal_corr noise_corr : Buf) (i : Nat) (st : Buf × Buf) : Buf × Buf :=
  let vec := Function.update st.1 i 0
  let forward_error := vecdot_with_toeplitz_row signal_corr vec i (i + 1)
  let vec := update_vec forward_error i vec
  let coeffs := Function.update st.2 i 0
  let y_error := vecdot_with_toeplitz_row signal_corr coeffs i (i + 1)
  let coeffs := for_loop 0 (i + 1) (fun j coeffs =>
    Function.update coeffs j
      (coeffs j + (signal_corr i - noise_corr i - y_error) * vec (i - j))) coeffs
  (vec, coeffs)

/-- The pair `(vec, coeffs)` after the base assignments and the outer-loop iterations
`i = 1 .. hi - 1` of `calc_wiener_coeffs`. -/
def wiener_run (signal_corr noise_corr : Buf) (hi : Nat) (vec coeffs : Buf) : Buf × Buf :=
  for_loop 1 hi (wiener_order signal_corr noise_corr)
    (Function.update vec 0 (1 / signal_corr 0),
     Function.update coeffs 0 ((signal_corr 0 - noise_corr 0) / signal_corr 0))

/-- The scratch vector in use during a call: a fresh allocation `fresh` when the static one
is too small, the static one otherwise. -/
def scratch (st : solver_static) (fresh : Buf) (num_taps : Nat) : solver_static :=
  if num_taps > st.vec_size then { vec := fresh, vec_size := num_taps } else st

/-- Embedding of `calc_wiener_coeffs(coeffs, signal_corr, noise_corr, num_taps)`.  `st` holds
the statics on entry, `fresh` the contents of the block `malloc` hands out if the scratch
vector is reallocated.  Returns the final contents of `coeffs` and the statics on exit. -/
def calc_wiener_coeffs (st : solver_static) (fresh : Buf) (coeffs signal_corr noise_corr : Buf)
    (num_taps : Nat) : Buf × solver_static :=
  if num_taps = 0 then (coeffs, st)
  else
    let st1 := scratch st fresh num_taps
    let r := wiener_run signal_corr noise_corr num_taps st1.vec coeffs
    (r.2, { st1 with vec := r.1 })

/-- The value of `forward_error` at order `i` during a call of `calc_wiener_coeffs`. -/
def forward_error (st : solver_static) (fresh : Buf) (coeffs signal_corr noise_corr : Buf)
    (num_taps i : Nat) : ℚ :=
  forward_error_of signal_corr
    (wiener_run signal_corr noise_corr i (scratch st fresh num_taps).vec coeffs).1 i

/-- Embedding of `apply_filter(out, data, size, coeffs, num_taps, state)`; returns the final
contents of `out` and of `state`. -/
def apply_filter (out data : Buf) (size : Nat) (coeffs : Buf) (num_taps : Nat) (state : Buf) :
    Buf × Buf :=
  let out1 := for_loop 0 (size_sub num_taps 1) (fun i out =>
    let y := for_loop 0 (i + 1) (fun j y => y + data (i - j) * coeffs j) 0
    let y := for_loop (i + 1) num_taps (fun j y =>
      y + state (size_sub (size_add (size_sub i j) num_taps) 1) * coeffs j) y
    Function.update out i y) out
  let out2 := for_loop (size_sub num_taps 1) size (fun i out =>
    let y := for_loop 0 num_taps (fun j y => y + data (i - j) * coeffs j) 0
    Function.update out i y) out1
  let state1 := for_loop 0 (size_sub num_taps 1) (fun i state =>
    Function.update state i (data (size_add (size_sub (size_sub size num_taps) 1) i))) state
  (out2, state1)

/-- Number of buffers discarded at the start (`NUM_FRAMES_DISCARD`). -/
def NUM_FRAMES_DISCARD : Nat := 10

/-- Number of frames used for learning the noise autocorrelation (`NUM_FRAMES_LEARN_NOISE`). -/
def NUM_FRAMES_LEARN_NOISE : Nat := 5

/-- The constant `LEARNING_FACTOR` (0.3), read as an exact rational. -/
def LEARNING_FACTOR : ℚ := 3 / 10

/-- The PortAudio return code `paContinue`. -/
def paContinue : Int := 0

/-- Embedding of `struct stream_data`: each pointer field is the buffer it points to. -/
structure stream_data where
  temp_buffer : Buf
  wiener_coeffs : Buf
  wiener_state : Buf
  signal_corr : Buf
  signal_corr_current : Buf
  noise_corr : Buf
  num_taps : Nat
  buffer_size : Nat
  frame_index : Nat

/-- Embedding of `calc_mean(data, size)`. -/
def calc_mean (data : Buf) (size : Nat) : ℚ :=
  for_loop 0 size (fun i sum => sum + data i) 0 / (size : ℚ)

/-- What one invocation of `audio_callback` leaves behind: the statics of the solver, the
pipeline state, the contents of the output frame and the returned code. -/
structure callback_result where
  statics : solver_static
  sdata : stream_data
  output : Buf
  ret : Int

/-- The effect of `memcpy(output, input, frame_count * sizeof(float))`. -/
def memcpy (output input : Buf) (frame_count : Nat) : Buf :=
  fun i => if i < frame_count then input i else output i

/-- Embedding of `audio_callback(input, output, frame_count, ..., user_data)`.  `st` holds
the statics of `calc_wiener_coeffs` on entry and `fresh` the contents of the block its
`malloc` hands out, `output` the contents of the output frame on entry. -/
def audio_callback (st : solver_static) (fresh : Buf) (sdata : stream_data)
    (input output : Buf) (frame_count : Nat) : callback_result :=
  let num_taps := sdata.num_taps
  if sdata.frame_index ≥ NUM_FRAMES_DISCARD + NUM_FRAMES_LEARN_NOISE then
    let mean := calc_mean input frame_count
    let temp_buffer := for_loop 0 frame_count (fun i temp_buffer =>
      Function.update temp_buffer i (input i - mean)) sdata.temp_buffer
    let signal_corr_current :=
      estimate_autocorrelation sdata.signal_corr_current sdata.num_taps temp_buffer frame_count
    let signal_corr := for_loop 0 num_taps (fun i signal_corr =>
      Function.update signal_corr i
        (signal_corr i * (1 - LEARNING_FACTOR) + signal_corr_current i * LEARNING_FACTOR))
      sdata.signal_corr
    let solved :=
      calc_wiener_coeffs st fresh sdata.wiener_coeffs signal_corr sdata.noise_corr sdata.num_taps
    let filtered :=
      apply_filter output input frame_count solved.1 sdata.num_taps sdata.wiener_state
    let output_f := for_loop 0 frame_count (fun i output_f =>
      Function.update output_f i (output_f i + mean)) filtered.1
    { statics := solved.2
      sdata := { sdata with
        temp_buffer := temp_buffer
        signal_corr_current := signal_corr_current
        signal_corr := signal_corr
        wiener_coeffs := solved.1
        wiener_state := filtered.2
        frame_index := (sdata.frame_index + 1) % SIZE_MOD }
      output := output_f
      ret := paContinue }
  else if sdata.frame_index ≥ NUM_FRAMES_DISCARD then
    let mean := calc_mean input frame_count
    let temp_buffer := for_loop 0 frame_count (fun i temp_buffer =>
      Function.update temp_buffer i (input i - mean)) sdata.temp_buffer
    let signal_corr :=
      estimate_autocorrelation sdata.signal_corr num_taps temp_buffer frame_count
    let noise_corr := for_loop 0 num_taps (fun i noise_corr =>
      Function.update noise_corr i (noise_corr i + signal_corr i / (NUM_FRAMES_LEARN_NOISE : ℚ)))
      sdata.noise_corr
    { statics := st
      sdata := { sdata with
        temp_buffer := temp_buffer
        signal_corr := signal_corr
        noise_corr := noise_corr
        frame_index := (sdata.frame_index + 1) % SIZE_MOD }
      output := memcpy output input frame_count
      ret := paContinue }
  else
    { statics := st
      sdata := { sdata with frame_index := (sdata.frame_index + 1) % SIZE_MOD }
      output := memcpy output input frame_count
      ret := paContinue }

/-- What the seven `malloc` calls of `create_stream_data` return: `none` for a failed
allocation, otherwise the (arbitrary) initial contents of the block. -/
structure allocations where
  out : Bool
  buffer : Option Buf
  wiener_coeffs : Option Buf
  wiener_state : Option Buf
  signal_corr : Option Buf
  signal_corr_current : Option Buf
  noise_corr : Option Buf

/-- The effect of `memset(p, 0, sizeof(float) * count)` on a float buffer. -/
def memset_zero (p : Buf) (count : Nat) : Buf :=
  fun i => if i < count then 0 else p i

/-- Embedding of `create_stream_data(num_taps, buffer_size)`; `none` is the `NULL` return.
(When the allocation of the struct itself fails the source stores into `out` before the
check; the embedding returns `none` there as well.) -/
def create_stream_data (m : allocations) (num_taps buffer_size : Nat) : Option stream_data :=
  match m.out, m.buffer, m.wiener_coeffs, m.wiener_state, m.signal_corr,
      m.signal_corr_current, m.noise_corr with
  | true, some buffer, some wiener_coeffs, some wiener_state, some signal_corr,
      some signal_corr_current, some noise_corr =>
    some
      { temp_buffer := buffer
        wiener_coeffs := wiener_coeffs
        wiener_state := memset_zero wiener_state (size_sub num_taps 1)
        signal_corr := memset_zero signal_corr num_taps
        signal_corr_current := signal_corr_current
        noise_corr := memset_zero noise_corr num_taps
        num_taps := num_taps
        buffer_size := buffer_size
        frame_index := 0 }
  | _, _, _, _, _, _, _ => none

/-- The pipeline state and output frames after feeding the frames `frames 0`, ...,
`frames (n - 1)` through `audio_callback`, each of `frame_count` samples. -/
def run_frames (fresh : Buf) (frames : Nat → Buf) (frame_count : Nat) :
    Nat → solver_static × stream_data → solver_static × stream_data
  | 0, w => w
  | n + 1, w =>
    let w1 := run_frames fresh frames frame_count n w
    let r := audio_callback w1.1 fresh w1.2 (frames n) (fun _ => 0) frame_count
    (r.statics, r.sdata)

/-- The extended input `x` of the FIR formula: `x[k] = data[k]` for `k ≥ 0` and
`x[k] = state[k + num_taps - 1]` for negative `k` (the delay line on entry). -/
def fir_input (data state : Buf) (num_taps : Nat) (k : Int) : ℚ :=
  if 0 ≤ k then data k.toNat else state (k + (num_taps : Int) - 1).toNat

/-- The frame `0, 1, 2, ...` used as a concrete input. -/
def ramp : Buf := fun i => (i : ℚ)

/-- A buffer holding the same value at every index. -/
def const_buf (c : ℚ) : Buf := fun _ => c

/-- The coefficient vector `[1, 2, 3]`. -/
def taps_123 : Buf := fun i => if i = 0 then 1 else if i = 1 then 2 else if i = 2 then 3 else 0

/-- The block `[1, 2, 3, ...]` and the block `[4, 5, 6, ...]` that follows its first three
samples. -/
def block_A : Buf := fun i => (i : ℚ) + 1

/-- The block `[4, 5, 6, ...]`. -/
def block_B : Buf := fun i => (i : ℚ) + 4

/-- The concatenation of the first `n` samples of `a` with the block `b`. -/
def concat_buf (a : Buf) (n : Nat) (b : Buf) : Buf := fun i => if i < n then a i else b (i - n)

/-- Dot product of the first `m` entries of `u` with row `row` of the symmetric Toeplitz
matrix whose entry `(row, k)` is `s[|row - k|]`. -/
def row_sum (s u : Buf) (row m : Nat) : ℚ :=
  ∑ k in Finset.range m, s (Int.natAbs ((row : ℤ) - (k : ℤ))) * u k

/-- The signal autocorrelation `[1, 1/2, 1/3]` used as a concrete input. -/
def sig3 : Buf := fun i => if i = 0 then 1 else if i = 1 then 1 / 2 else if i = 2 then 1 / 3 else 0

/-- The noise autocorrelation `[1/4, 1/5, 0]` used as a concrete input. -/
def noi3 : Buf := fun i => if i = 0 then 1 / 4 else if i = 1 then 1 / 5 else 0

/-- The first `m` entries of `v` solve `R v = e_0` for the leading `m × m` block of the
Toeplitz matrix of `s`. -/
def solves_unit (s v : Buf) (m : Nat) : Prop :=
  ∀ row, row < m → row_sum s v row m = if row = 0 then 1 else 0

/-- The first `m` entries of `c` solve `R c = s - n` for the leading `m × m` block of the
Toeplitz matrix of `s`. -/
def solves_rhs (s n c : Buf) (m : Nat) : Prop :=
  ∀ row, row < m → row_sum s c row m = s row - n row

/-- The white-noise-like autocorrelation `[2, 0, 0, ...]`. -/
def white2 : Buf := fun i => if i = 0 then 2 else 0

/-- Allocations that all succeed and hand out zero-filled blocks. -/
def zero_allocations : allocations :=
  { out := true
    buffer := some (const_buf 0)
    wiener_coeffs := some (const_buf 0)
    wiener_state := some (const_buf 0)
    signal_corr := some (const_buf 0)
    signal_corr_current := some (const_buf 0)
    noise_corr := some (const_buf 0) }

/-- The zero-mean frame `[1, -1, 1, -1, ...]`. -/
def alt_frame : Buf := fun i => if i % 2 = 0 then 1 else -1

/-- The autocorrelation estimate at lag `d` of one frame of `F` samples taken alone: the sum
over `i < F - num_taps` of the products of the mean-subtracted samples `i` and `i + d`,
divided by `F - num_taps`. -/
def frame_autocorr (frame : Buf) (F num_taps d : Nat) : ℚ :=
  (∑ i in Finset.range (F - num_taps),
      (frame i - (∑ k in Finset.range F, frame k) / (F : ℚ))
        * (frame (i + d) - (∑ k in Finset.range F, frame k) / (F : ℚ)))
    / ((F : ℚ) - (num_taps : ℚ))

/-- The mean over the `NUM_FRAMES_LEARN_NOISE` learn frames of their own autocorrelation
estimates at lag `d`. -/
def mean_frame_autocorr (frames : Nat → Buf) (F num_taps d : Nat) : ℚ :=
  (1 / (NUM_FRAMES_LEARN_NOISE : ℚ))
    * ∑ k in Finset.range NUM_FRAMES_LEARN_NOISE,
        frame_autocorr (frames (NUM_FRAMES_DISCARD + k)) F num_taps d

/-- A pipeline state in the Discard phase (`frame_index = 3`). -/
def discard_state : stream_data :=
  { temp_buffer := const_buf 0
    wiener_coeffs := const_buf 0
    wiener_state := const_buf 0
    signal_corr := const_buf 0
    signal_corr_current := const_buf 0
    noise_corr := const_buf 0
    num_taps := 1
    buffer_size := 2
    frame_index := 3 }

/-- The block of `audio_callback` under the final `else` (Discard): the frame is copied to
the output and the frame counter incremented. -/
def discard_branch (st : solver_static) (sdata : stream_data) (input output : Buf)
    (frame_count : Nat) : callback_result :=
  { statics := st
    sdata := { sdata with frame_index := (sdata.frame_index + 1) % SIZE_MOD }
    output := memcpy output input frame_count
    ret := paContinue }

/-- The block of `audio_callback` under `else if (sdata->frame_index >= NUM_FRAMES_DISCARD)`
(LearnNoise): mean removal into `temp_buffer`, the estimator on `signal_corr`, the
accumulation into `noise_corr`, the copy of the frame to the output. -/
def learn_noise_branch (st : solver_static) (sdata : stream_data) (input output : Buf)
    (frame_count : Nat) : callback_result :=
  let mean := calc_mean input frame_count
  let temp_buffer := for_loop 0 frame_count (fun i temp_buffer =>
    Function.update temp_buffer i (input i - mean)) sdata.temp_buffer
  let signal_corr :=
    estimate_autocorrelation sdata.signal_corr sdata.num_taps temp_buffer frame_count
  let noise_corr := for_loop 0 sdata.num_taps (fun i noise_corr =>
    Function.update noise_corr i (noise_corr i + signal_corr i / (NUM_FRAMES_LEARN_NOISE : ℚ)))
    sdata.noise_corr
  { statics := st
    sdata := { sdata with
      temp_buffer := temp_buffer
      signal_corr := signal_corr
      noise_corr := noise_corr
      frame_index := (sdata.frame_index + 1) % SIZE_MOD }
    output := memcpy output input frame_count
    ret := paContinue }

/-- The block of `audio_callback` under
`if (sdata->frame_index >= NUM_FRAMES_DISCARD + NUM_FRAMES_LEARN_NOISE)` (Filter): mean
removal, the estimator on `signal_corr_current`, the blend into `signal_corr`, the solver,
the filter and the addition of the mean to the output. -/
def filter_branch (st : solver_static) (fresh : Buf) (sdata : stream_data) (input output : Buf)
    (frame_count : Nat) : callback_result :=
  let mean := calc_mean input frame_count
  let temp_buffer := for_loop 0 frame_count (fun i temp_buffer =>
    Function.update temp_buffer i (input i - mean)) sdata.temp_buffer
  let signal_corr_current :=
    estimate_autocorrelation sdata.signal_corr_current sdata.num_taps temp_buffer frame_count
  let signal_corr := for_loop 0 sdata.num_taps (fun i signal_corr =>
    Function.update signal_corr i
      (signal_corr i * (1 - LEARNING_FACTOR) + signal_corr_current i * LEARNING_FACTOR))
    sdata.signal_corr
  let solved :=
    calc_wiener_coeffs st fresh sdata.wiener_coeffs signal_corr sdata.noise_corr sdata.num_taps
  let filtered :=
    apply_filter output input frame_count solved.1 sdata.num_taps sdata.wiener_state
  let output_f := for_loop 0 frame_count (fun i output_f =>
    Function.update output_f i (output_f i + mean)) filtered.1
  { statics := solved.2
    sdata := { sdata with
      temp_buffer := temp_buffer
      signal_corr_current := signal_corr_current
      signal_corr := signal_corr
      wiener_coeffs := solved.1
      wiener_state := filtered.2
      frame_index := (sdata.frame_index + 1) % SIZE_MOD }
    output := output_f
    ret := paContinue }

/-- A pipeline state in the LearnNoise phase (`frame_index = 10`), all buffers zero. -/
def learn_state : stream_data := { discard_state with frame_index := 10 }

/-- A pipeline state in the Filter phase (`frame_index = 15`), all buffers zero. -/
def filter_state : stream_data := { discard_state with frame_index := 15 }

/-- The pipeline returned by `create_stream_data(3, 8)` when every allocation succeeds and
hands out a zero-filled block. -/
def fresh_pipeline_3_8 : stream_data :=
  { temp_buffer := const_buf 0
    wiener_coeffs := const_buf 0
    wiener_state := memset_zero (const_buf 0) (size_sub 3 1)
    signal_corr := memset_zero (const_buf 0) 3
    signal_corr_current := const_buf 0
    noise_corr := memset_zero (const_buf 0) 3
    num_taps := 3
    buffer_size := 8
    frame_index := 0 }

/-- The pipeline returned by `create_stream_data(1, 2)` when every allocation succeeds and
hands out a zero-filled block. -/
def discard_state_fresh : stream_data :=
  { temp_buffer := const_buf 0
    wiener_coeffs := const_buf 0
    wiener_state := memset_zero (const_buf 0) (size_sub 1 1)
    signal_corr := memset_zero (const_buf 0) 1
    signal_corr_current := const_buf 0
    noise_corr := memset_zero (const_buf 0) 1
    num_taps := 1
    buffer_size := 2
    frame_index := 0 }

/-- Solver statics left by an earlier call with a larger filter: a scratch vector of size 9
holding the value `7` everywhere. -/
def used_static : solver_static := { vec := const_buf 7, vec_size := 9 }

/-- The four buffers `apply_filter` reaches through its pointer arguments. -/
inductive buffer_id where
  | out
  | data
  | coeffs
  | state
  deriving DecidableEq

/-- The element accesses made by `apply_filter(out, data, size, coeffs, num_taps, state)`, in
program order: each entry names the buffer and the index of one array expression of the
source. -/
def apply_filter_accesses (size num_taps : Nat) : List (buffer_id × Nat) :=
  let acc1 := for_loop 0 (size_sub num_taps 1) (fun i acc =>
    let acc := for_loop 0 (i + 1) (fun j acc =>
      acc ++ [(buffer_id.data, i - j), (buffer_id.coeffs, j)]) acc
    let acc := for_loop (i + 1) num_taps (fun j acc =>
      acc ++ [(buffer_id.state, size_sub (size_add (size_sub i j) num_taps) 1),
              (buffer_id.coeffs, j)]) acc
    acc ++ [(buffer_id.out, i)]) []
  let acc2 := for_loop (size_sub num_taps 1) size (fun i acc =>
    let acc := for_loop 0 num_taps (fun j acc =>
      acc ++ [(buffer_id.data, i - j), (buffer_id.coeffs, j)]) acc
    acc ++ [(buffer_id.out, i)]) acc1
  for_loop 0 (size_sub num_taps 1) (fun i acc =>
    acc ++ [(buffer_id.data, size_add (size_sub (size_sub size num_taps) 1) i),
            (buffer_id.state, i)]) acc2

/-- An access is in bounds when `data` and `out` hold `size` elements, `coeffs` holds
`num_taps` and `state` holds `num_taps - 1`. -/
def in_bounds (size num_taps : Nat) (a : buffer_id × Nat) : Bool :=
  match a.1 with
  | buffer_id.out => decide (a.2 < size)
  | buffer_id.data => decide (a.2 < size)
  | buffer_id.coeffs => decide (a.2 < num_taps)
  | buffer_id.state => decide (a.2 < num_taps - 1)

/-- The frame `[3, 1, 3, 1, ...]`, of mean `2` over any even number of samples. -/
def frame_31 : Buf := fun i => if i % 2 = 0 then 3 else 1

/-- Fifteen frames of silence followed by the frame `[3, 1]`. -/
def silence_then_31 : Nat → Buf := fun n => if n < 15 then const_buf 0 else frame_31

/-- The frame with the value `m` subtracted from every sample. -/
def mean_removed (input : Buf) (m : ℚ) : Buf := fun k => input k - m

/-! ## Properties of the loops -/

theorem loop_succ_last {σ : Type} (body : Nat → σ → σ) (lo n : Nat) (st : σ) :
    loop body lo (n + 1) st = body (lo + n) (loop body lo n st) := by
  induction n generalizing lo st with
  | zero => simp [loop]
  | succ n ih =>
    rw [loop, ih (lo + 1) (body lo st)]
    have h : lo + 1 + n = lo + (n + 1) := by omega
    rw [h]
    rfl

/-- An accumulating loop `y += g j` computes the sum of the terms. -/
theorem loop_sum (g : Nat → ℚ) (lo n : Nat) (y0 : ℚ) :
    loop (fun j y => y + g j) lo n y0 = y0 + ∑ k in Finset.range n, g (lo + k) := by
  induction n with
  | zero => simp [loop]
  | succ n ih => rw [loop_succ_last, ih, Finset.sum_range_succ]; ring

/-- A loop that rewrites element `i` from its own old value leaves a pointwise description. -/
theorem loop_pointwise (f : Nat → ℚ → ℚ) (lo n : Nat) (buf : Buf) (k : Nat) :
    loop (fun i b => Function.update b i (f i (b i))) lo n buf k
      = if lo ≤ k ∧ k < lo + n then f k (buf k) else buf k := by
  induction n with
  | zero =>
    have h : ¬ (lo ≤ k ∧ k < lo + 0) := by omega
    rw [if_neg h]
    rfl
  | succ n ih =>
    rw [loop_succ_last]
    by_cases hk : k = lo + n
    · subst hk
      have h1 : ¬ (lo ≤ lo + n ∧ lo + n < lo + n) := by omega
      have h2 : lo ≤ lo + n ∧ lo + n < lo + (n + 1) := by omega
      have ih2 := ih
      rw [if_neg h1] at ih2
      simp only [Function.update_same, if_pos h2]
      rw [ih2]
    · rw [Function.update_noteq hk, ih]
      by_cases h1 : lo ≤ k ∧ k < lo + n
      · have h2 : lo ≤ k ∧ k < lo + (n + 1) := by omega
        rw [if_pos h1, if_pos h2]
      · have h2 : ¬ (lo ≤ k ∧ k < lo + (n + 1)) := by omega
        rw [if_neg h1, if_neg h2]

/-- The `for` loop form of `loop_pointwise`, starting at index `0`. -/
theorem for_loop_pointwise (f : Nat → ℚ → ℚ) (hi : Nat) (buf : Buf) (k : Nat) :
    for_loop 0 hi (fun i b => Function.update b i (f i (b i))) buf k
      = if k < hi then f k (buf k) else buf k := by
  unfold for_loop
  rw [loop_pointwise]
  by_cases h : k < hi
  · have h2 : 0 ≤ k ∧ k < 0 + (hi - 0) := by omega
    rw [if_pos h, if_pos h2]
  · have h2 : ¬ (0 ≤ k ∧ k < 0 + (hi - 0)) := by omega
    rw [if_neg h, if_neg h2]

theorem size_sub_eq (a b : Nat) (hb : b ≤ a) (ha : a < SIZE_MOD) : size_sub a b = a - b := by
  unfold size_sub SIZE_MOD at *
  omega

/-- The accumulation loops of `estimate_autocorrelation` after `n` rows of the outer loop. -/
theorem autocorr_accumulate (data : Buf) (max_lag n : Nat) (out : Buf) (d : Nat) :
    for_loop 0 n (fun i out => for_loop 0 max_lag (fun lag out =>
        Function.update out lag (out lag + data i * data (i + lag))) out) out d
      = if d < max_lag then out d + ∑ i in Finset.range n, data i * data (i + d) else out d := by
  rw [for_loop, Nat.sub_zero]
  induction n with
  | zero => simp [loop]
  | succ n ih =>
    rw [loop_succ_last]
    rw [for_loop_pointwise (fun lag x => x + data (0 + n) * data (0 + n + lag))]
    rw [ih]
    by_cases h : d < max_lag
    · simp only [if_pos h, Finset.sum_range_succ, Nat.zero_add]
      ring
    · simp only [if_neg h]

/-- Closed form of `estimate_autocorrelation`: the buffer contents on entry are part of
the sum that is normalised. -/
theorem estimate_autocorrelation_apply (out : Buf) (max_lag : Nat) (data : Buf) (size d : Nat) :
    estimate_autocorrelation out max_lag data size d
      = if d < max_lag then
          (out d + ∑ i in Finset.range (size_sub size max_lag), data i * data (i + d))
            * (1 / ((size_sub size max_lag : Nat) : ℚ))
        else out d := by
  unfold estimate_autocorrelation
  rw [for_loop_pointwise (fun _ x => x * (1 / ((size_sub size max_lag : Nat) : ℚ)))]
  rw [autocorr_accumulate]
  by_cases h : d < max_lag
  · simp only [if_pos h]
  · simp only [if_neg h]

/-! ## The autocorrelation estimator -/

/-- C5: with `max_lag < size` and an `out` buffer that is all zero on entry,
`estimate_autocorrelation` leaves at every lag `d < max_lag` the sum of `data[i] * data[i+d]`
over `i < size - max_lag`, divided by `size - max_lag`; an all-zero frame gives an all-zero
result. -/
theorem estimate_autocorrelation_formula (out data : Buf) (max_lag size : Nat)
    (hsize : size < SIZE_MOD) (hlag : max_lag < size) (hzero : ∀ d, d < max_lag → out d = 0) :
    (∀ d, d < max_lag →
      estimate_autocorrelation out max_lag data size d
        = (∑ i in Finset.range (size - max_lag), data i * data (i + d))
            / ((size : ℚ) - (max_lag : ℚ)))
    ∧ ((∀ i, i < size → data i = 0) →
        ∀ d, d < max_lag → estimate_autocorrelation out max_lag data size d = 0) := by
  have hn : size_sub size max_lag = size - max_lag := size_sub_eq _ _ (le_of_lt hlag) hsize
  have hcast : ((size - max_lag : Nat) : ℚ) = (size : ℚ) - (max_lag : ℚ) :=
    Nat.cast_sub (le_of_lt hlag)
  have main : ∀ d, d < max_lag →
      estimate_autocorrelation out max_lag data size d
        = (∑ i in Finset.range (size - max_lag), data i * data (i + d))
            / ((size : ℚ) - (max_lag : ℚ)) := by
    intro d hd
    rw [estimate_autocorrelation_apply, if_pos hd, hzero d hd, hn, hcast]
    ring
  refine ⟨main, ?_⟩
  intro hdata d hd
  rw [main d hd]
  have hsum : ∑ i in Finset.range (size - max_lag), data i * data (i + d) = 0 := by
    apply Finset.sum_eq_zero
    intro i hi
    have hi2 : i < size := by
      have := Finset.mem_range.mp hi
      omega
    rw [hdata i hi2, zero_mul]
  rw [hsum, zero_div]

theorem estimate_autocorrelation_formula_witness :
    estimate_autocorrelation (const_buf 0) 2 ramp 5 1
      = (∑ i in Finset.range (5 - 2), ramp i * ramp (i + 1)) / (((5 : Nat) : ℚ) - ((2 : Nat) : ℚ)) :=
  (estimate_autocorrelation_formula (const_buf 0) ramp 2 5 (by decide) (by decide)
    (fun _ _ => rfl)).1 1 (by decide)

/-- C6: the contents of `out` on entry do reach the result: on the frame `[1, 1]` with
`max_lag = 1`, an `out` buffer holding `0` yields `1` and one holding `1` yields `2`. -/
theorem estimate_autocorrelation_depends_on_out :
    estimate_autocorrelation (const_buf 0) 1 (const_buf 1) 2 0 = 1
    ∧ estimate_autocorrelation (const_buf 1) 1 (const_buf 1) 2 0 = 2 := by
  decide!

/-! ## The FIR filter -/

/-- The delay-line index `i - j + num_taps - 1`, computed with wrapping `size_t` operations,
is the exact value `i + num_taps - 1 - j` whenever `i < j < num_taps`. -/
theorem state_index_eq (i j num_taps : Nat) (hij : i < j) (hj : j < num_taps)
    (hnt : num_taps < SIZE_MOD) :
    size_sub (size_add (size_sub i j) num_taps) 1 = i + num_taps - 1 - j := by
  unfold size_sub size_add SIZE_MOD at *
  omega

/-- The sample written by the first loop of `apply_filter` at output index `i`. -/
theorem fir_head_sum (data coeffs state : Buf) (num_taps i : Nat) (hi : i + 1 < num_taps)
    (hnt : num_taps < SIZE_MOD) :
    for_loop (i + 1) num_taps (fun j y =>
        y + state (size_sub (size_add (size_sub i j) num_taps) 1) * coeffs j)
      (for_loop 0 (i + 1) (fun j y => y + data (i - j) * coeffs j) 0)
      = ∑ j in Finset.range num_taps, coeffs j * fir_input data state num_taps ((i : ℤ) - (j : ℤ)) := by
  unfold for_loop
  rw [loop_sum, loop_sum]
  have hsplit : ∀ f : Nat → ℚ, ∑ j in Finset.range num_taps, f j
      = ∑ j in Finset.range (i + 1), f j
        + ∑ k in Finset.range (num_taps - (i + 1)), f (i + 1 + k) := by
    intro f
    rw [← Finset.sum_range_add]
    have e : i + 1 + (num_taps - (i + 1)) = num_taps := by omega
    rw [e]
  rw [hsplit, Nat.sub_zero, zero_add]
  congr 1
  · apply Finset.sum_congr rfl
    intro j hj
    have hj2 : j < i + 1 := Finset.mem_range.mp hj
    have h0 : (0 : ℤ) ≤ (i : ℤ) - (j : ℤ) := by omega
    have h1 : ((i : ℤ) - (j : ℤ)).toNat = i - j := by omega
    rw [fir_input, if_pos h0, h1, Nat.zero_add]
    ring
  · apply Finset.sum_congr rfl
    intro k hk
    have hk2 : k < num_taps - (i + 1) := Finset.mem_range.mp hk
    have h0 : ¬ ((0 : ℤ) ≤ (i : ℤ) - ((i + 1 + k : Nat) : ℤ)) := by omega
    have h1 : ((i : ℤ) - ((i + 1 + k : Nat) : ℤ) + (num_taps : ℤ) - 1).toNat
        = i + num_taps - 1 - (i + 1 + k) := by omega
    rw [fir_input, if_neg h0, h1, state_index_eq i (i + 1 + k) num_taps (by omega) (by omega) hnt]
    ring

/-- The sample written by the second loop of `apply_filter` at output index `i`. -/
theorem fir_tail_sum (data coeffs state : Buf) (num_taps i : Nat) (hi : num_taps ≤ i + 1) :
    for_loop 0 num_taps (fun j y => y + data (i - j) * coeffs j) 0
      = ∑ j in Finset.range num_taps, coeffs j * fir_input data state num_taps ((i : ℤ) - (j : ℤ)) := by
  unfold for_loop
  rw [loop_sum, Nat.sub_zero, zero_add]
  apply Finset.sum_congr rfl
  intro j hj
  have hj2 : j < num_taps := Finset.mem_range.mp hj
  have h0 : (0 : ℤ) ≤ (i : ℤ) - (j : ℤ) := by omega
  have h1 : ((i : ℤ) - (j : ℤ)).toNat = i - j := by omega
  rw [fir_input, if_pos h0, h1, Nat.zero_add]
  ring

/-- C2: for `num_taps ≥ 1` and a frame of `size ≥ num_taps - 1` samples, every output
sample `i < size` of `apply_filter` is the sum over `j < num_taps` of
`coeffs[j] * x[i - j]`, with `x` the input frame extended to negative indices by the delay
line on entry. -/
theorem apply_filter_output (out data coeffs state : Buf) (size num_taps : Nat)
    (h1 : 1 ≤ num_taps) (hsz : num_taps - 1 ≤ size) (hnt : num_taps < SIZE_MOD)
    (i : Nat) (hi : i < size) :
    (apply_filter out data size coeffs num_taps state).1 i
      = ∑ j in Finset.range num_taps, coeffs j * fir_input data state num_taps ((i : ℤ) - (j : ℤ)) := by
  have hn1 : size_sub num_taps 1 = num_taps - 1 := size_sub_eq _ _ h1 hnt
  unfold apply_filter
  simp only [hn1]
  rw [for_loop, loop_pointwise (fun i _ =>
    for_loop 0 num_taps (fun j y => y + data (i - j) * coeffs j) 0)]
  by_cases hlo : num_taps - 1 ≤ i
  · have hc : num_taps - 1 ≤ i ∧ i < num_taps - 1 + (size - (num_taps - 1)) := by omega
    rw [if_pos hc]
    exact fir_tail_sum data coeffs state num_taps i (by omega)
  · have hc : ¬ (num_taps - 1 ≤ i ∧ i < num_taps - 1 + (size - (num_taps - 1))) := by omega
    rw [if_neg hc]
    rw [for_loop_pointwise (fun i _ =>
      for_loop (i + 1) num_taps (fun j y =>
          y + state (size_sub (size_add (size_sub i j) num_taps) 1) * coeffs j)
        (for_loop 0 (i + 1) (fun j y => y + data (i - j) * coeffs j) 0))]
    rw [if_pos (by omega)]
    exact fir_head_sum data coeffs state num_taps i (by omega) hnt

theorem apply_filter_output_witness :
    (apply_filter (const_buf 0) ramp 8 taps_123 3 (const_buf 5)).1 1
      = ∑ j in Finset.range 3, taps_123 j * fir_input ramp (const_buf 5) 3 (((1 : Nat) : ℤ) - (j : ℤ)) :=
  apply_filter_output (const_buf 0) ramp taps_123 (const_buf 5) 8 3 (by decide) (by decide)
    (by decide) 1 (by decide)

/-- Closed form of the delay line left by `apply_filter`. -/
theorem apply_filter_state (out data coeffs state : Buf) (size num_taps i : Nat) :
    (apply_filter out data size coeffs num_taps state).2 i
      = if i < size_sub num_taps 1 then
          data (size_add (size_sub (size_sub size num_taps) 1) i)
        else state i := by
  unfold apply_filter
  simp only
  rw [for_loop_pointwise
    (fun i _ => data (size_add (size_sub (size_sub size num_taps) 1) i))]

/-- C3: on an 8-sample frame with `num_taps = 3` the delay line left by `apply_filter`
is `[data[4], data[5]]`, while the last two samples of the frame are `data[6]`, `data[7]`. -/
theorem apply_filter_state_not_tail :
    (apply_filter (const_buf 0) ramp 8 taps_123 3 (const_buf 0)).2 0 = ramp 4
    ∧ (apply_filter (const_buf 0) ramp 8 taps_123 3 (const_buf 0)).2 1 = ramp 5
    ∧ ramp 4 ≠ ramp 6 ∧ ramp 5 ≠ ramp 7 := by
  decide!

/-- C4: with `num_taps = 2` and coefficients `[1, 1]`, filtering `[1, 2, 3, 4, 5, 6]` in one
call gives `7` at sample 3, while filtering `[1, 2, 3]` and then `[4, 5, 6]` with the state
left by the first call gives `5` at that sample: the first call leaves `data[0] = 1` in the
delay line instead of `data[2] = 3`. -/
theorem apply_filter_split_differs :
    (apply_filter (const_buf 0) (concat_buf block_A 3 block_B) 6 (const_buf 1) 2 (const_buf 0)).1 3
      = 7
    ∧ (apply_filter (const_buf 0) block_B 3 (const_buf 1) 2
        (apply_filter (const_buf 0) block_A 3 (const_buf 1) 2 (const_buf 0)).2).1 0 = 5
    ∧ (apply_filter (const_buf 0) block_A 3 (const_buf 1) 2 (const_buf 0)).2 0 = block_A 0 := by
  decide!

/-! ## The Levinson recursion of `calc_wiener_coeffs` -/

/-- Below `2 ^ 31` the index `abs(i - row_index)` is the absolute difference. -/
theorem abs_index_eq (i r : Nat) (hi : i < 2 ^ 31) (hr : r < 2 ^ 31) :
    abs_index i r = Int.natAbs ((r : ℤ) - (i : ℤ)) := by
  unfold abs_index to_int size_sub SIZE_MOD
  split <;> omega

/-- The dot product computed by `vecdot_with_toeplitz_row` is the Toeplitz row sum. -/
theorem vecdot_eq_row_sum (s u : Buf) (row m : Nat) (hrow : row < 2 ^ 31) (hm : m ≤ 2 ^ 31) :
    vecdot_with_toeplitz_row s u row m = row_sum s u row m := by
  unfold vecdot_with_toeplitz_row for_loop row_sum
  rw [loop_sum, Nat.sub_zero, zero_add]
  apply Finset.sum_congr rfl
  intro k hk
  have hk2 : k < m := Finset.mem_range.mp hk
  rw [Nat.zero_add, abs_index_eq k row (by omega) hrow]

theorem row_sum_congr (s u w : Buf) (row m : Nat) (h : ∀ k, k < m → u k = w k) :
    row_sum s u row m = row_sum s w row m := by
  unfold row_sum
  apply Finset.sum_congr rfl
  intro k hk
  rw [h k (Finset.mem_range.mp hk)]

theorem row_sum_succ (s u : Buf) (row m : Nat) :
    row_sum s u row (m + 1)
      = row_sum s u row m + s (Int.natAbs ((row : ℤ) - (m : ℤ))) * u m := by
  unfold row_sum
  rw [Finset.sum_range_succ]

/-- Row sums are linear in the vector. -/
theorem row_sum_comb (s u u1 u2 : Buf) (a b : ℚ) (row m : Nat)
    (h : ∀ k, k < m → u k = a * u1 k + b * u2 k) :
    row_sum s u row m = a * row_sum s u1 row m + b * row_sum s u2 row m := by
  unfold row_sum
  rw [Finset.mul_sum, Finset.mul_sum, ← Finset.sum_add_distrib]
  apply Finset.sum_congr rfl
  intro k hk
  rw [h k (Finset.mem_range.mp hk)]
  ring

/-- Reversing the vector turns row `row` into row `i - row` (persymmetry of a symmetric
Toeplitz matrix). -/
theorem row_sum_reflect (s u : Buf) (row i : Nat) (hrow : row ≤ i) :
    row_sum s (fun k => u (i - k)) row (i + 1) = row_sum s u (i - row) (i + 1) := by
  unfold row_sum
  rw [← Finset.sum_range_reflect (fun k => s (Int.natAbs (((i - row : Nat) : ℤ) - (k : ℤ))) * u k)]
  apply Finset.sum_congr rfl
  intro k hk
  have hk2 : k < i + 1 := Finset.mem_range.mp hk
  have e1 : i + 1 - 1 - k = i - k := by omega
  have e2 : Int.natAbs (((i - row : Nat) : ℤ) - ((i - k : Nat) : ℤ))
      = Int.natAbs ((row : ℤ) - (k : ℤ)) := by omega
  simp only [e1, e2]

/-- The in-place pair loop of `update_vec` after `t ≤ i / 2 + 1` iterations: the entries
`k < t` and `i - t < k ≤ i` hold their new values, the others are untouched. -/
theorem update_vec_partial (a b : ℚ) (i : Nat) (v : Buf) (t : Nat) (ht : t ≤ i / 2 + 1)
    (k : Nat) :
    loop (fun j vec =>
        Function.update (Function.update vec j (a * vec j - b * vec (i - j))) (i - j)
          (a * vec (i - j) - b * vec j)) 0 t v k
      = if k < t ∨ (i - t < k ∧ k ≤ i) then a * v k - b * v (i - k) else v k := by
  induction t generalizing k with
  | zero =>
    have h : ¬ (k < 0 ∨ (i - 0 < k ∧ k ≤ i)) := by omega
    rw [if_neg h]
    rfl
  | succ t ih =>
    have ht2 : t ≤ i / 2 + 1 := by omega
    rw [loop_succ_last, Nat.zero_add]
    have hLt := ih ht2 t
    have hLit := ih ht2 (i - t)
    rw [if_neg (by omega)] at hLt
    rw [if_neg (by omega)] at hLit
    by_cases hk1 : k = i - t
    · subst hk1
      have hc : i - t < t + 1 ∨ (i - (t + 1) < i - t ∧ i - t ≤ i) := by omega
      have e : i - (i - t) = t := by omega
      rw [Function.update_same, if_pos hc, hLt, hLit, e]
    · rw [Function.update_noteq hk1]
      by_cases hk2 : k = t
      · subst hk2
        have hc : k < k + 1 ∨ (i - (k + 1) < k ∧ k ≤ i) := by omega
        rw [Function.update_same, if_pos hc, hLt, hLit]
      · rw [Function.update_noteq hk2, ih ht2 k]
        by_cases hc : k < t ∨ (i - t < k ∧ k ≤ i)
        · have hc2 : k < t + 1 ∨ (i - (t + 1) < k ∧ k ≤ i) := by omega
          rw [if_pos hc, if_pos hc2]
        · have hc2 : ¬ (k < t + 1 ∨ (i - (t + 1) < k ∧ k ≤ i)) := by omega
          rw [if_neg hc, if_neg hc2]

/-- The scratch vector after the in-place loop of order `i`. -/
theorem update_vec_apply (fe : ℚ) (i : Nat) (v : Buf) (k : Nat) :
    update_vec fe i v k
      = if k ≤ i then 1 / (1 - fe * fe) * v k - fe / (1 - fe * fe) * v (i - k) else v k := by
  unfold update_vec for_loop
  rw [Nat.sub_zero]
  have h := update_vec_partial (1 / (1 - fe * fe)) (fe / (1 - fe * fe)) i v (i / 2 + 1)
    (le_refl _) k
  by_cases hk : k ≤ i
  · have hc : k < i / 2 + 1 ∨ (i - (i / 2 + 1) < k ∧ k ≤ i) := by omega
    rw [if_pos hc] at h
    rw [if_pos hk]
    exact h
  · have hc : ¬ (k < i / 2 + 1 ∨ (i - (i / 2 + 1) < k ∧ k ≤ i)) := by omega
    rw [if_neg hc] at h
    rw [if_neg hk]
    exact h

/-- The scratch vector after order `i` of the recursion. -/
theorem wiener_order_vec (s n : Buf) (i : Nat) (st : Buf × Buf) (k : Nat) :
    (wiener_order s n i st).1 k
      = if k ≤ i then
          1 / (1 - forward_error_of s st.1 i * forward_error_of s st.1 i)
              * Function.update st.1 i 0 k
            - forward_error_of s st.1 i
                / (1 - forward_error_of s st.1 i * forward_error_of s st.1 i)
              * Function.update st.1 i 0 (i - k)
        else Function.update st.1 i 0 k := by
  unfold wiener_order forward_error_of
  exact update_vec_apply _ i _ k

/-- The coefficients after order `i` of the recursion. -/
theorem wiener_order_coeffs (s n : Buf) (i : Nat) (st : Buf × Buf) (k : Nat) :
    (wiener_order s n i st).2 k
      = if k < i + 1 then
          Function.update st.2 i 0 k
            + (s i - n i - vecdot_with_toeplitz_row s (Function.update st.2 i 0) i (i + 1))
              * (wiener_order s n i st).1 (i - k)
        else Function.update st.2 i 0 k := by
  unfold wiener_order
  exact for_loop_pointwise (fun j x => x + (s i - n i
    - vecdot_with_toeplitz_row s (Function.update st.2 i 0) i (i + 1))
      * update_vec (vecdot_with_toeplitz_row s (Function.update st.1 i 0) i (i + 1)) i
          (Function.update st.1 i 0) (i - j)) (i + 1) (Function.update st.2 i 0) k

/-- Row sums of a vector whose entry `i` has just been cleared, for the rows above `i`. -/
theorem row_sum_cleared (s u : Buf) (row i : Nat) :
    row_sum s (Function.update u i 0) row (i + 1) = row_sum s u row i := by
  rw [row_sum_succ, Function.update_same, mul_zero, add_zero]
  apply row_sum_congr
  intro k hk
  exact Function.update_noteq (by omega) _ _

/-- Order `i` keeps the scratch vector a solution of `R v = e_0`, one size larger. -/
theorem wiener_order_unit (s n : Buf) (i : Nat) (st : Buf × Buf) (hi1 : 1 ≤ i)
    (hi : i < 2 ^ 31) (hV : solves_unit s st.1 i)
    (hD : 1 - forward_error_of s st.1 i * forward_error_of s st.1 i ≠ 0) :
    solves_unit s (wiener_order s n i st).1 (i + 1) := by
  intro row hrow
  have hA : ∀ r, r < i →
      row_sum s (Function.update st.1 i 0) r (i + 1) = if r = 0 then 1 else 0 := by
    intro r hr
    rw [row_sum_cleared]
    exact hV r hr
  have hAi : row_sum s (Function.update st.1 i 0) i (i + 1) = forward_error_of s st.1 i := by
    unfold forward_error_of
    rw [vecdot_eq_row_sum s _ i (i + 1) hi (by omega)]
  have hcomb := row_sum_comb s (wiener_order s n i st).1 (Function.update st.1 i 0)
    (fun k => Function.update st.1 i 0 (i - k))
    (1 / (1 - forward_error_of s st.1 i * forward_error_of s st.1 i))
    (-(forward_error_of s st.1 i
      / (1 - forward_error_of s st.1 i * forward_error_of s st.1 i))) row (i + 1)
    (by
      intro k hk
      rw [wiener_order_vec, if_pos (by omega)]
      ring)
  rw [hcomb, row_sum_reflect s _ row i (by omega)]
  by_cases h0 : row = 0
  · subst h0
    rw [hA 0 (by omega), Nat.sub_zero, hAi, if_pos rfl]
    field_simp
    ring
  · rw [if_neg h0]
    by_cases hlast : row = i
    · subst hlast
      rw [hAi, Nat.sub_self, hA 0 (by omega), if_pos rfl]
      field_simp
    · rw [hA row (by omega), hA (i - row) (by omega), if_neg h0, if_neg (by omega)]
      ring

/-- Order `i` keeps the coefficients a solution of `R c = s - n`, one size larger. -/
theorem wiener_order_rhs (s n : Buf) (i : Nat) (st : Buf × Buf) (hi : i < 2 ^ 31)
    (hW : solves_unit s (wiener_order s n i st).1 (i + 1)) (hC : solves_rhs s n st.2 i) :
    solves_rhs s n (wiener_order s n i st).2 (i + 1) := by
  intro row hrow
  have hcomb := row_sum_comb s (wiener_order s n i st).2 (Function.update st.2 i 0)
    (fun k => (wiener_order s n i st).1 (i - k)) 1
    (s i - n i - vecdot_with_toeplitz_row s (Function.update st.2 i 0) i (i + 1)) row (i + 1)
    (by
      intro k hk
      rw [wiener_order_coeffs, if_pos hk]
      ring)
  rw [hcomb, row_sum_reflect s _ row i (by omega), hW (i - row) (by omega)]
  by_cases hlast : row = i
  · subst hlast
    rw [vecdot_eq_row_sum s _ row (row + 1) hi (by omega), if_pos (by omega)]
    ring
  · rw [row_sum_cleared, hC row (by omega), if_neg (by omega)]
    ring

/-- After `m` orders of the recursion the scratch vector and the coefficients solve their
systems of size `m + 1`, provided no divisor `1 - forward_error²` met on the way is zero. -/
theorem wiener_loop_solves (s n v c : Buf) (hs0 : s 0 ≠ 0) (m : Nat) (hm : m < 2 ^ 31)
    (hdiv : ∀ i, 1 ≤ i → i ≤ m →
      1 - forward_error_of s (wiener_run s n i v c).1 i
          * forward_error_of s (wiener_run s n i v c).1 i ≠ 0) :
    solves_unit s (wiener_run s n (m + 1) v c).1 (m + 1)
    ∧ solves_rhs s n (wiener_run s n (m + 1) v c).2 (m + 1) := by
  induction m with
  | zero =>
    constructor
    · intro row hrow
      have h0 : row = 0 := by omega
      subst h0
      simp [wiener_run, for_loop, loop, row_sum, hs0]
    · intro row hrow
      have h0 : row = 0 := by omega
      subst h0
      simp [wiener_run, for_loop, loop, row_sum]
      field_simp
  | succ m ih =>
    have ih2 := ih (by omega) (fun i h1 h2 => hdiv i h1 (by omega))
    have hstep : wiener_run s n (m + 1 + 1) v c
        = wiener_order s n (m + 1) (wiener_run s n (m + 1) v c) := by
      unfold wiener_run for_loop
      have e1 : m + 1 + 1 - 1 = (m + 1 - 1) + 1 := by omega
      have e2 : 1 + (m + 1 - 1) = m + 1 := by omega
      rw [e1, loop_succ_last, e2]
    rw [hstep]
    have hW := wiener_order_unit s n (m + 1) (wiener_run s n (m + 1) v c) (by omega) hm ih2.1
      (hdiv (m + 1) (by omega) (le_refl _))
    exact ⟨hW, wiener_order_rhs s n (m + 1) _ hm hW ih2.2⟩

/-- C1: in exact arithmetic, for `num_taps ≥ 1` (within the range `2 ^ 31` of the `int`
index of `abs`), `signal_corr[0] ≠ 0` and every divisor `1 - forward_error²` non-zero, the
coefficients written by `calc_wiener_coeffs` satisfy every row of the Toeplitz system:
the sum over `j < num_taps` of `signal_corr[|i - j|] * c[j]` equals
`signal_corr[i] - noise_corr[i]`. -/
theorem calc_wiener_coeffs_solves_toeplitz (st : solver_static)
    (fresh coeffs signal_corr noise_corr : Buf) (num_taps : Nat)
    (h1 : 1 ≤ num_taps) (hmax : num_taps ≤ 2 ^ 31) (hs0 : signal_corr 0 ≠ 0)
    (hdiv : ∀ i, 1 ≤ i → i < num_taps →
      1 - forward_error st fresh coeffs signal_corr noise_corr num_taps i ^ 2 ≠ 0)
    (i : Nat) (hi : i < num_taps) :
    ∑ j in Finset.range num_taps,
        signal_corr (Int.natAbs ((i : ℤ) - (j : ℤ)))
          * (calc_wiener_coeffs st fresh coeffs signal_corr noise_corr num_taps).1 j
      = signal_corr i - noise_corr i := by
  have hdiv2 : ∀ k, 1 ≤ k → k ≤ num_taps - 1 →
      1 - forward_error_of signal_corr
            (wiener_run signal_corr noise_corr k (scratch st fresh num_taps).vec coeffs).1 k
          * forward_error_of signal_corr
            (wiener_run signal_corr noise_corr k (scratch st fresh num_taps).vec coeffs).1 k
        ≠ 0 := by
    intro k hk1 hk2
    have h := hdiv k hk1 (by omega)
    rw [pow_two] at h
    exact h
  have hsol := (wiener_loop_solves signal_corr noise_corr (scratch st fresh num_taps).vec coeffs
    hs0 (num_taps - 1) (by omega) hdiv2).2
  have e : num_taps - 1 + 1 = num_taps := by omega
  rw [e] at hsol
  have hrow := hsol i hi
  unfold calc_wiener_coeffs
  rw [if_neg (by omega)]
  exact hrow

theorem calc_wiener_coeffs_solves_toeplitz_witness :
    ∑ j in Finset.range 3,
        sig3 (Int.natAbs (((2 : Nat) : ℤ) - (j : ℤ)))
          * (calc_wiener_coeffs solver_static_init (const_buf 0) (const_buf 0) sig3 noi3 3).1 j
      = sig3 2 - noi3 2 :=
  calc_wiener_coeffs_solves_toeplitz solver_static_init (const_buf 0) (const_buf 0) sig3 noi3 3
    (by decide) (by decide) (by decide!)
    (by
      intro i h1 h2
      have hcases : i = 1 ∨ i = 2 := by omega
      rcases hcases with h | h <;> subst h <;> decide!)
    2 (by decide)

/-- With an all-zero noise profile every order of the recursion leaves the coefficients
equal to the unit vector `[1, 0, ..., 0]`. -/
theorem wiener_loop_identity (s n v c : Buf) (hs0 : s 0 ≠ 0) (m : Nat) (hm : m < 2 ^ 31)
    (hn : ∀ k, k ≤ m → n k = 0) :
    ∀ k, k ≤ m → (wiener_run s n (m + 1) v c).2 k = if k = 0 then 1 else 0 := by
  induction m with
  | zero =>
    intro k hk
    have h0 : k = 0 := by omega
    subst h0
    have hn0 := hn 0 (le_refl _)
    simp [wiener_run, for_loop, loop, hn0, hs0]
  | succ m ih =>
    have ih2 := ih (by omega) (fun k hk => hn k (by omega))
    have hstep : wiener_run s n (m + 1 + 1) v c
        = wiener_order s n (m + 1) (wiener_run s n (m + 1) v c) := by
      unfold wiener_run for_loop
      have e1 : m + 1 + 1 - 1 = (m + 1 - 1) + 1 := by omega
      have e2 : 1 + (m + 1 - 1) = m + 1 := by omega
      rw [e1, loop_succ_last, e2]
    have hclr : ∀ k, k < m + 1 + 1 →
        Function.update (wiener_run s n (m + 1) v c).2 (m + 1) 0 k = if k = 0 then 1 else 0 := by
      intro k hk
      by_cases hlast : k = m + 1
      · subst hlast
        rw [Function.update_same, if_neg (by omega)]
      · rw [Function.update_noteq hlast]
        exact ih2 k (by omega)
    have hye : vecdot_with_toeplitz_row s
        (Function.update (wiener_run s n (m + 1) v c).2 (m + 1) 0) (m + 1) (m + 1 + 1)
          = s (m + 1) := by
      rw [vecdot_eq_row_sum s _ (m + 1) (m + 1 + 1) hm (by omega),
        row_sum_congr s _ (fun k => if k = 0 then 1 else 0) (m + 1) (m + 1 + 1) hclr]
      unfold row_sum
      rw [Finset.sum_eq_single 0]
      · have e : Int.natAbs (((m + 1 : Nat) : ℤ) - ((0 : Nat) : ℤ)) = m + 1 := by omega
        rw [e]
        show s (m + 1) * (if (0 : Nat) = 0 then 1 else 0) = s (m + 1)
        rw [if_pos rfl, mul_one]
      · intro b _ hb
        show s _ * (if b = 0 then 1 else 0) = 0
        rw [if_neg hb, mul_zero]
      · intro h
        exact absurd (Finset.mem_range.mpr (by omega)) h
    intro k hk
    rw [hstep, wiener_order_coeffs, if_pos (by omega), hye, hn (m + 1) (le_refl _),
      hclr k (by omega)]
    ring

/-- C7: in exact arithmetic, for `num_taps ≥ 1` (within the range `2 ^ 31` of the `int`
index of `abs`), an all-zero `noise_corr` and `signal_corr = [s, 0, ..., 0]` with `s ≠ 0`,
the coefficients written by `calc_wiener_coeffs` are exactly `[1, 0, ..., 0]`. -/
theorem calc_wiener_coeffs_pass_through (st : solver_static)
    (fresh coeffs signal_corr noise_corr : Buf) (num_taps : Nat)
    (h1 : 1 ≤ num_taps) (hmax : num_taps ≤ 2 ^ 31) (hs0 : signal_corr 0 ≠ 0)
    (_hwhite : ∀ k, 1 ≤ k → k < num_taps → signal_corr k = 0)
    (hnoise : ∀ k, k < num_taps → noise_corr k = 0) (j : Nat) (hj : j < num_taps) :
    (calc_wiener_coeffs st fresh coeffs signal_corr noise_corr num_taps).1 j
      = if j = 0 then 1 else 0 := by
  have hid := wiener_loop_identity signal_corr noise_corr (scratch st fresh num_taps).vec coeffs
    hs0 (num_taps - 1) (by omega) (fun k hk => hnoise k (by omega)) j (by omega)
  have e : num_taps - 1 + 1 = num_taps := by omega
  rw [e] at hid
  unfold calc_wiener_coeffs
  rw [if_neg (by omega)]
  exact hid

theorem calc_wiener_coeffs_pass_through_witness :
    (calc_wiener_coeffs solver_static_init (const_buf 7) (const_buf 7) white2 (const_buf 0) 3).1 1
      = if 1 = 0 then 1 else 0 :=
  calc_wiener_coeffs_pass_through solver_static_init (const_buf 7) (const_buf 7) white2
    (const_buf 0) 3 (by decide) (by decide) (by decide!) (fun _ _ _ => by simp [white2]; omega)
    (fun _ _ => rfl) 1 (by decide)

/-! ## The frame state machine -/

/-- C8: while `frame_index < NUM_FRAMES_DISCARD + NUM_FRAMES_LEARN_NOISE` the callback
copies the input frame to the output sample for sample, and neither the solver nor the
filter runs: coefficients, delay line and solver statics are left as they were. -/
theorem audio_callback_pass_through (st : solver_static) (fresh : Buf) (sdata : stream_data)
    (input output : Buf) (frame_count : Nat)
    (h : sdata.frame_index < NUM_FRAMES_DISCARD + NUM_FRAMES_LEARN_NOISE) :
    (∀ i, i < frame_count →
        (audio_callback st fresh sdata input output frame_count).output i = input i)
    ∧ (audio_callback st fresh sdata input output frame_count).sdata.wiener_coeffs
        = sdata.wiener_coeffs
    ∧ (audio_callback st fresh sdata input output frame_count).sdata.wiener_state
        = sdata.wiener_state
    ∧ (audio_callback st fresh sdata input output frame_count).statics = st := by
  have hnot : ¬ (sdata.frame_index ≥ NUM_FRAMES_DISCARD + NUM_FRAMES_LEARN_NOISE) := by omega
  unfold audio_callback
  rw [if_neg hnot]
  by_cases hlearn : sdata.frame_index ≥ NUM_FRAMES_DISCARD
  · rw [if_pos hlearn]
    refine ⟨?_, rfl, rfl, rfl⟩
    intro i hi
    simp only [memcpy, if_pos hi]
  · rw [if_neg hlearn]
    refine ⟨?_, rfl, rfl, rfl⟩
    intro i hi
    simp only [memcpy, if_pos hi]

theorem audio_callback_pass_through_witness :
    (audio_callback solver_static_init (const_buf 0) discard_state alt_frame (const_buf 0) 2).output 1
      = alt_frame 1 :=
  (audio_callback_pass_through solver_static_init (const_buf 0) discard_state alt_frame
    (const_buf 0) 2 (by decide)).1 1 (by decide)

/-- C9: a fresh pipeline with `num_taps = 1` fed 15 frames `[1, -1]` ends the LearnNoise
phase with `noise_corr[0] = 3`, while the mean of the five per-frame estimates is `1`. -/
theorem noise_profile_not_mean :
    (create_stream_data zero_allocations 1 2).map (fun sd =>
        (run_frames (const_buf 0) (fun _ => alt_frame) 2 15 (solver_static_init, sd)).2.noise_corr 0)
      = some 3
    ∧ mean_frame_autocorr (fun _ => alt_frame) 2 1 0 = 1 := by
  decide!

/-- C10: in the same run the second Filter frame (frame index 16) blends the value `2` found
in `signal_corr_current` into `signal_corr`, giving `163/50`, while the estimate of that frame
alone is `1` and the blend with it would be `74/25`. -/
theorem signal_blend_uses_stale_current :
    (create_stream_data zero_allocations 1 2).map (fun sd =>
        (run_frames (const_buf 0) (fun _ => alt_frame) 2 17 (solver_static_init, sd)).2.signal_corr 0)
      = some (163 / 50)
    ∧ (create_stream_data zero_allocations 1 2).map (fun sd =>
        (run_frames (const_buf 0) (fun _ => alt_frame) 2 16 (solver_static_init, sd)).2.signal_corr 0
            * (1 - LEARNING_FACTOR)
          + frame_autocorr alt_frame 2 1 0 * LEARNING_FACTOR)
      = some (74 / 25)
    ∧ (create_stream_data zero_allocations 1 2).map (fun sd =>
        (run_frames (const_buf 0) (fun _ => alt_frame) 2 17 (solver_static_init, sd)).2.signal_corr_current 0)
      = some 2
    ∧ frame_autocorr alt_frame 2 1 0 = 1 := by
  decide!

/-- Every branch of `audio_callback` increments the frame counter (a `size_t`) and returns
`paContinue`; `num_taps` and `buffer_size` are never written. -/
theorem audio_callback_counter (st : solver_static) (fresh : Buf) (sdata : stream_data)
    (input output : Buf) (frame_count : Nat) :
    (audio_callback st fresh sdata input output frame_count).sdata.frame_index
        = (sdata.frame_index + 1) % SIZE_MOD
    ∧ (audio_callback st fresh sdata input output frame_count).ret = paContinue
    ∧ (audio_callback st fresh sdata input output frame_count).sdata.num_taps = sdata.num_taps
    ∧ (audio_callback st fresh sdata input output frame_count).sdata.buffer_size
        = sdata.buffer_size := by
  unfold audio_callback
  by_cases hf : sdata.frame_index ≥ NUM_FRAMES_DISCARD + NUM_FRAMES_LEARN_NOISE
  · rw [if_pos hf]
    exact ⟨rfl, rfl, rfl, rfl⟩
  · rw [if_neg hf]
    by_cases hl : sdata.frame_index ≥ NUM_FRAMES_DISCARD
    · rw [if_pos hl]
      exact ⟨rfl, rfl, rfl, rfl⟩
    · rw [if_neg hl]
      exact ⟨rfl, rfl, rfl, rfl⟩

/-- Before the Filter phase the delay line is not written. -/
theorem audio_callback_keeps_state (st : solver_static) (fresh : Buf) (sdata : stream_data)
    (input output : Buf) (frame_count : Nat)
    (h : sdata.frame_index < NUM_FRAMES_DISCARD + NUM_FRAMES_LEARN_NOISE) :
    (audio_callback st fresh sdata input output frame_count).sdata.wiener_state
      = sdata.wiener_state := by
  have hnot : ¬ (sdata.frame_index ≥ NUM_FRAMES_DISCARD + NUM_FRAMES_LEARN_NOISE) := by omega
  unfold audio_callback
  rw [if_neg hnot]
  by_cases hl : sdata.frame_index ≥ NUM_FRAMES_DISCARD
  · rw [if_pos hl]
  · rw [if_neg hl]

/-- C12: in the Filter phase (`frame_index ≥ NUM_FRAMES_DISCARD + NUM_FRAMES_LEARN_NOISE`)
`audio_callback` leaves every element of `noise_corr` unchanged. -/
theorem audio_callback_noise_frozen (st : solver_static) (fresh : Buf) (sdata : stream_data)
    (input output : Buf) (frame_count : Nat)
    (h : sdata.frame_index ≥ NUM_FRAMES_DISCARD + NUM_FRAMES_LEARN_NOISE) :
    ∀ d, (audio_callback st fresh sdata input output frame_count).sdata.noise_corr d
      = sdata.noise_corr d := by
  intro d
  unfold audio_callback
  rw [if_pos h]

theorem audio_callback_noise_frozen_witness :
    (audio_callback solver_static_init (const_buf 0) filter_state alt_frame (const_buf 0) 2).sdata.noise_corr 0
      = filter_state.noise_corr 0 :=
  audio_callback_noise_frozen solver_static_init (const_buf 0) filter_state alt_frame
    (const_buf 0) 2 (by decide) 0

/-- C18: in the Discard phase (`frame_index < NUM_FRAMES_DISCARD`) `audio_callback` changes
nothing in the pipeline state except `frame_index`: `noise_corr`, `signal_corr`,
`signal_corr_current`, `wiener_coeffs`, `wiener_state`, `temp_buffer`, `num_taps` and
`buffer_size` are unchanged, and so are the statics of the solver. -/
theorem audio_callback_discard_effect (st : solver_static) (fresh : Buf) (sdata : stream_data)
    (input output : Buf) (frame_count : Nat) (h : sdata.frame_index < NUM_FRAMES_DISCARD) :
    (audio_callback st fresh sdata input output frame_count).sdata
        = { sdata with frame_index := (sdata.frame_index + 1) % SIZE_MOD }
    ∧ (audio_callback st fresh sdata input output frame_count).sdata.noise_corr
        = sdata.noise_corr
    ∧ (audio_callback st fresh sdata input output frame_count).sdata.signal_corr
        = sdata.signal_corr
    ∧ (audio_callback st fresh sdata input output frame_count).sdata.signal_corr_current
        = sdata.signal_corr_current
    ∧ (audio_callback st fresh sdata input output frame_count).sdata.wiener_coeffs
        = sdata.wiener_coeffs
    ∧ (audio_callback st fresh sdata input output frame_count).sdata.wiener_state
        = sdata.wiener_state
    ∧ (audio_callback st fresh sdata input output frame_count).sdata.temp_buffer
        = sdata.temp_buffer
    ∧ (audio_callback st fresh sdata input output frame_count).statics = st := by
  have hK : NUM_FRAMES_DISCARD = 10 := rfl
  have hL : NUM_FRAMES_LEARN_NOISE = 5 := rfl
  have hf : ¬ (sdata.frame_index ≥ NUM_FRAMES_DISCARD + NUM_FRAMES_LEARN_NOISE) := by omega
  have hl : ¬ (sdata.frame_index ≥ NUM_FRAMES_DISCARD) := by omega
  unfold audio_callback
  rw [if_neg hf, if_neg hl]
  exact ⟨rfl, rfl, rfl, rfl, rfl, rfl, rfl, rfl⟩

theorem audio_callback_discard_effect_witness :
    (audio_callback solver_static_init (const_buf 0) discard_state alt_frame (const_buf 0) 2).sdata
      = { discard_state with frame_index := (discard_state.frame_index + 1) % SIZE_MOD } :=
  (audio_callback_discard_effect solver_static_init (const_buf 0) discard_state alt_frame
    (const_buf 0) 2 (by decide)).1

/-- What `create_stream_data` guarantees about a pipeline it returns. -/
theorem create_stream_data_some (m : allocations) (num_taps buffer_size : Nat)
    (sd : stream_data) (h : create_stream_data m num_taps buffer_size = some sd) :
    sd.frame_index = 0 ∧ sd.num_taps = num_taps ∧ sd.buffer_size = buffer_size
    ∧ (∀ k, k < size_sub num_taps 1 → sd.wiener_state k = 0)
    ∧ (∀ k, k < num_taps → sd.signal_corr k = 0)
    ∧ (∀ k, k < num_taps → sd.noise_corr k = 0) := by
  unfold create_stream_data at h
  split at h
  · have h2 := Option.some.inj h
    subst h2
    refine ⟨rfl, rfl, rfl, ?_, ?_, ?_⟩
    · intro k hk
      simp only [memset_zero, if_pos hk]
    · intro k hk
      simp only [memset_zero, if_pos hk]
    · intro k hk
      simp only [memset_zero, if_pos hk]
  · exact absurd h (by simp)

/-- The frame counter after `n` callbacks counts modulo `2 ^ 64`. -/
theorem run_frames_counter (fresh : Buf) (frames : Nat → Buf) (frame_count n : Nat)
    (w : solver_static × stream_data) (hw : w.2.frame_index < SIZE_MOD) :
    (run_frames fresh frames frame_count n w).2.frame_index
      = (w.2.frame_index + n) % SIZE_MOD := by
  induction n with
  | zero =>
    rw [Nat.add_zero, Nat.mod_eq_of_lt hw]
    rfl
  | succ n ih =>
    have hstep : (run_frames fresh frames frame_count (n + 1) w).2.frame_index
        = ((run_frames fresh frames frame_count n w).2.frame_index + 1) % SIZE_MOD := by
      rw [run_frames]
      exact (audio_callback_counter _ fresh _ (frames n) (fun _ => 0) frame_count).1
    rw [hstep, ih]
    unfold SIZE_MOD
    omega

/-- After `n < 2 ^ 64` callbacks on a pipeline that started at `frame_index = 0` the counter
holds `n`. -/
theorem run_frames_counter_fresh (fresh : Buf) (frames : Nat → Buf) (frame_count n : Nat)
    (w : solver_static × stream_data) (h0 : w.2.frame_index = 0) (hn : n < SIZE_MOD) :
    (run_frames fresh frames frame_count n w).2.frame_index = n := by
  rw [run_frames_counter fresh frames frame_count n w (by rw [h0]; decide), h0, Nat.zero_add]
  exact Nat.mod_eq_of_lt hn

/-- Which block of `audio_callback` runs is decided by `frame_index` alone: the Discard
block below `NUM_FRAMES_DISCARD`, the LearnNoise block for the next
`NUM_FRAMES_LEARN_NOISE` values, the Filter block from there on. -/
theorem audio_callback_branch (st : solver_static) (fresh : Buf) (sdata : stream_data)
    (input output : Buf) (frame_count : Nat) :
    (sdata.frame_index < NUM_FRAMES_DISCARD →
        audio_callback st fresh sdata input output frame_count
          = discard_branch st sdata input output frame_count)
    ∧ (NUM_FRAMES_DISCARD ≤ sdata.frame_index →
        sdata.frame_index < NUM_FRAMES_DISCARD + NUM_FRAMES_LEARN_NOISE →
        audio_callback st fresh sdata input output frame_count
          = learn_noise_branch st sdata input output frame_count)
    ∧ (NUM_FRAMES_DISCARD + NUM_FRAMES_LEARN_NOISE ≤ sdata.frame_index →
        audio_callback st fresh sdata input output frame_count
          = filter_branch st fresh sdata input output frame_count) := by
  refine ⟨?_, ?_, ?_⟩
  · intro h
    have hf : ¬ (sdata.frame_index ≥ NUM_FRAMES_DISCARD + NUM_FRAMES_LEARN_NOISE) := by omega
    have hl : ¬ (sdata.frame_index ≥ NUM_FRAMES_DISCARD) := by omega
    unfold audio_callback discard_branch
    rw [if_neg hf, if_neg hl]
  · intro h1 h2
    have hf : ¬ (sdata.frame_index ≥ NUM_FRAMES_DISCARD + NUM_FRAMES_LEARN_NOISE) := by omega
    have hl : sdata.frame_index ≥ NUM_FRAMES_DISCARD := h1
    unfold audio_callback learn_noise_branch
    rw [if_neg hf, if_pos hl]
  · intro h
    have hf : sdata.frame_index ≥ NUM_FRAMES_DISCARD + NUM_FRAMES_LEARN_NOISE := h
    unfold audio_callback filter_branch
    rw [if_pos hf]

/-- C13: every callback returns `paContinue` and increments `frame_index` by exactly one
(within the range of the `size_t` counter).  Starting from a fresh pipeline, the callback
that follows `n` processed frames (`n < 2 ^ 64`) finds `frame_index = n` and leaves
`n + 1`; it runs the Discard block of `audio_callback` exactly for `n < NUM_FRAMES_DISCARD`,
the LearnNoise block exactly for the next `NUM_FRAMES_LEARN_NOISE` values of `n`, and the
Filter block for every later `n`, so no phase is revisited or skipped. -/
theorem phase_sequence_forward (m : allocations) (num_taps buffer_size : Nat) (sd : stream_data)
    (hsd : create_stream_data m num_taps buffer_size = some sd) (st : solver_static)
    (fresh : Buf) (frames : Nat → Buf) (input output : Buf) (frame_count n : Nat)
    (hn : n < SIZE_MOD) :
    (∀ (st2 : solver_static) (sdata : stream_data) (input2 output2 : Buf),
        (audio_callback st2 fresh sdata input2 output2 frame_count).ret = paContinue
        ∧ (sdata.frame_index + 1 < SIZE_MOD →
            (audio_callback st2 fresh sdata input2 output2 frame_count).sdata.frame_index
              = sdata.frame_index + 1))
    ∧ (run_frames fresh frames frame_count n (st, sd)).2.frame_index = n
    ∧ (audio_callback (run_frames fresh frames frame_count n (st, sd)).1 fresh
          (run_frames fresh frames frame_count n (st, sd)).2 input output
          frame_count).sdata.frame_index = (n + 1) % SIZE_MOD
    ∧ (n < NUM_FRAMES_DISCARD →
        audio_callback (run_frames fresh frames frame_count n (st, sd)).1 fresh
            (run_frames fresh frames frame_count n (st, sd)).2 input output frame_count
          = discard_branch (run_frames fresh frames frame_count n (st, sd)).1
              (run_frames fresh frames frame_count n (st, sd)).2 input output frame_count)
    ∧ (NUM_FRAMES_DISCARD ≤ n → n < NUM_FRAMES_DISCARD + NUM_FRAMES_LEARN_NOISE →
        audio_callback (run_frames fresh frames frame_count n (st, sd)).1 fresh
            (run_frames fresh frames frame_count n (st, sd)).2 input output frame_count
          = learn_noise_branch (run_frames fresh frames frame_count n (st, sd)).1
              (run_frames fresh frames frame_count n (st, sd)).2 input output frame_count)
    ∧ (NUM_FRAMES_DISCARD + NUM_FRAMES_LEARN_NOISE ≤ n →
        audio_callback (run_frames fresh frames frame_count n (st, sd)).1 fresh
            (run_frames fresh frames frame_count n (st, sd)).2 input output frame_count
          = filter_branch (run_frames fresh frames frame_count n (st, sd)).1 fresh
              (run_frames fresh frames frame_count n (st, sd)).2 input output frame_count) := by
  have h0 := (create_stream_data_some m num_taps buffer_size sd hsd).1
  have hidx := run_frames_counter_fresh fresh frames frame_count n (st, sd) h0 hn
  generalize run_frames fresh frames frame_count n (st, sd) = w at hidx ⊢
  have hcb := audio_callback_counter w.1 fresh w.2 input output frame_count
  have hbr := audio_callback_branch w.1 fresh w.2 input output frame_count
  rw [hidx] at hbr hcb
  refine ⟨?_, hidx, hcb.1, hbr.1, hbr.2.1, hbr.2.2⟩
  intro st2 sdata input2 output2
  have hc := audio_callback_counter st2 fresh sdata input2 output2 frame_count
  refine ⟨hc.2.1, ?_⟩
  intro hlt
  rw [hc.1]
  exact Nat.mod_eq_of_lt hlt

theorem phase_sequence_forward_witness :
    audio_callback
        (run_frames (const_buf 0) (fun _ => alt_frame) 2 12
          (solver_static_init, discard_state_fresh)).1 (const_buf 0)
        (run_frames (const_buf 0) (fun _ => alt_frame) 2 12
          (solver_static_init, discard_state_fresh)).2 alt_frame (const_buf 0) 2
      = learn_noise_branch
        (run_frames (const_buf 0) (fun _ => alt_frame) 2 12
          (solver_static_init, discard_state_fresh)).1
        (run_frames (const_buf 0) (fun _ => alt_frame) 2 12
          (solver_static_init, discard_state_fresh)).2 alt_frame (const_buf 0) 2 :=
  (phase_sequence_forward zero_allocations 1 2 discard_state_fresh rfl solver_static_init
    (const_buf 0) (fun _ => alt_frame) alt_frame (const_buf 0) 2 12 (by decide)).2.2.2.2.1
    (by decide) (by decide)

/-- The mean computed by `calc_mean` is the sum of the samples divided by their number. -/
theorem calc_mean_eq (data : Buf) (size : Nat) :
    calc_mean data size = (∑ k in Finset.range size, data k) / (size : ℚ) := by
  unfold calc_mean for_loop
  rw [loop_sum, Nat.sub_zero, zero_add]
  simp only [Nat.zero_add]

/-- The estimator applied to a zeroed buffer and a mean-subtracted copy of a frame yields the
autocorrelation estimate of that frame. -/
theorem estimate_of_mean_subtracted (out temp frame : Buf) (F num_taps d : Nat)
    (hF : F < SIZE_MOD) (hlag : num_taps < F) (hd : d < num_taps) (hzero : out d = 0)
    (htemp : ∀ i, i < F → temp i = frame i - calc_mean frame F) :
    estimate_autocorrelation out num_taps temp F d = frame_autocorr frame F num_taps d := by
  have hn : size_sub F num_taps = F - num_taps := size_sub_eq _ _ (le_of_lt hlag) hF
  have hcast : ((F - num_taps : Nat) : ℚ) = (F : ℚ) - (num_taps : ℚ) :=
    Nat.cast_sub (le_of_lt hlag)
  rw [estimate_autocorrelation_apply, if_pos hd, hzero, hn, hcast, zero_add]
  unfold frame_autocorr
  rw [← calc_mean_eq, mul_one_div]
  congr 1
  apply Finset.sum_congr rfl
  intro i hi
  have hi2 : i < F - num_taps := Finset.mem_range.mp hi
  rw [htemp i (by omega), htemp (i + d) (by omega)]

/-- C14 (as stated): a LearnNoise callback (`frame_index = 10`) on the frame `[1, -1]` with
an all-zero `signal_corr` leaves `signal_corr[0] = 1`, and a fresh pipeline fed 15 such
frames enters the Filter phase with `signal_corr[0] = 5`. -/
theorem learn_noise_changes_signal_corr :
    (audio_callback solver_static_init (const_buf 0) learn_state alt_frame
        (const_buf 0) 2).sdata.signal_corr 0 = 1
    ∧ learn_state.signal_corr 0 = 0
    ∧ (create_stream_data zero_allocations 1 2).map (fun sd =>
        (run_frames (const_buf 0) (fun _ => alt_frame) 2 15
          (solver_static_init, sd)).2.signal_corr 0) = some 5 := by
  decide!

/-- C14 (amended): in the LearnNoise phase `audio_callback` writes `signal_corr`: it stores
the mean-subtracted frame in `temp_buffer`, hands `signal_corr` to
`estimate_autocorrelation` as the output buffer, and adds the resulting `signal_corr[d]`
divided by `NUM_FRAMES_LEARN_NOISE` to `noise_corr[d]`; when `signal_corr` is all zero on
entry it holds afterwards the autocorrelation estimate of the frame. -/
theorem learn_noise_effect (st : solver_static) (fresh : Buf) (sdata : stream_data)
    (input output : Buf) (frame_count : Nat)
    (h1 : NUM_FRAMES_DISCARD ≤ sdata.frame_index)
    (h2 : sdata.frame_index < NUM_FRAMES_DISCARD + NUM_FRAMES_LEARN_NOISE) :
    (∀ i, i < frame_count →
        (audio_callback st fresh sdata input output frame_count).sdata.temp_buffer i
          = input i - calc_mean input frame_count)
    ∧ (audio_callback st fresh sdata input output frame_count).sdata.signal_corr
        = estimate_autocorrelation sdata.signal_corr sdata.num_taps
            (audio_callback st fresh sdata input output frame_count).sdata.temp_buffer
            frame_count
    ∧ (∀ d, d < sdata.num_taps →
        (audio_callback st fresh sdata input output frame_count).sdata.noise_corr d
          = sdata.noise_corr d
            + (audio_callback st fresh sdata input output frame_count).sdata.signal_corr d
                / (NUM_FRAMES_LEARN_NOISE : ℚ))
    ∧ (frame_count < SIZE_MOD → sdata.num_taps < frame_count →
        (∀ d, d < sdata.num_taps → sdata.signal_corr d = 0) →
        ∀ d, d < sdata.num_taps →
          (audio_callback st fresh sdata input output frame_count).sdata.signal_corr d
            = frame_autocorr input frame_count sdata.num_taps d) := by
  have hf : ¬ (sdata.frame_index ≥ NUM_FRAMES_DISCARD + NUM_FRAMES_LEARN_NOISE) := by omega
  have hl : sdata.frame_index ≥ NUM_FRAMES_DISCARD := h1
  have htemp : ∀ i, i < frame_count →
      (audio_callback st fresh sdata input output frame_count).sdata.temp_buffer i
        = input i - calc_mean input frame_count := by
    intro i hi
    unfold audio_callback
    rw [if_neg hf, if_pos hl]
    simp only
    rw [for_loop_pointwise (fun i _ => input i - calc_mean input frame_count), if_pos hi]
  have hsig : (audio_callback st fresh sdata input output frame_count).sdata.signal_corr
      = estimate_autocorrelation sdata.signal_corr sdata.num_taps
          (audio_callback st fresh sdata input output frame_count).sdata.temp_buffer
          frame_count := by
    unfold audio_callback
    rw [if_neg hf, if_pos hl]
  refine ⟨htemp, hsig, ?_, ?_⟩
  · intro d hd
    rw [hsig]
    unfold audio_callback
    rw [if_neg hf, if_pos hl]
    simp only
    rw [for_loop_pointwise (fun i x => x + estimate_autocorrelation sdata.signal_corr
      sdata.num_taps (for_loop 0 frame_count (fun i temp_buffer =>
        Function.update temp_buffer i (input i - calc_mean input frame_count))
        sdata.temp_buffer) frame_count i / (NUM_FRAMES_LEARN_NOISE : ℚ)), if_pos hd]
  · intro hF hlag hzero d hd
    rw [hsig]
    exact estimate_of_mean_subtracted sdata.signal_corr _ input frame_count sdata.num_taps d
      hF hlag hd (hzero d hd) htemp

theorem learn_noise_effect_witness :
    (audio_callback solver_static_init (const_buf 0) learn_state alt_frame
        (const_buf 0) 2).sdata.signal_corr 0
      = frame_autocorr alt_frame 2 learn_state.num_taps 0 :=
  (learn_noise_effect solver_static_init (const_buf 0) learn_state alt_frame (const_buf 0) 2
    (by decide) (by decide)).2.2.2 (by decide) (by decide) (fun _ _ => rfl) 0 (by decide)

/-! ## Independence of the solver from its scratch state -/

/-- The dot product reads only the first `m` entries of the vector. -/
theorem vecdot_congr (s u w : Buf) (row m : Nat) (h : ∀ k, k < m → u k = w k) :
    vecdot_with_toeplitz_row s u row m = vecdot_with_toeplitz_row s w row m := by
  unfold vecdot_with_toeplitz_row for_loop
  rw [loop_sum, loop_sum]
  congr 1
  apply Finset.sum_congr rfl
  intro k hk
  have hk2 : k < m - 0 := Finset.mem_range.mp hk
  rw [Nat.zero_add, h k (by omega)]

/-- Two states that agree below index `i` agree up to index `i` after order `i`. -/
theorem wiener_order_agree (s n : Buf) (i : Nat) (st st2 : Buf × Buf)
    (hv : ∀ k, k < i → st.1 k = st2.1 k) (hc : ∀ k, k < i → st.2 k = st2.2 k) :
    (∀ k, k < i + 1 → (wiener_order s n i st).1 k = (wiener_order s n i st2).1 k)
    ∧ (∀ k, k < i + 1 → (wiener_order s n i st).2 k = (wiener_order s n i st2).2 k) := by
  have hclr : ∀ (u w : Buf), (∀ k, k < i → u k = w k) →
      ∀ k, k < i + 1 → Function.update u i 0 k = Function.update w i 0 k := by
    intro u w huw k hk
    by_cases hki : k = i
    · subst hki
      rw [Function.update_same, Function.update_same]
    · rw [Function.update_noteq hki, Function.update_noteq hki]
      exact huw k (by omega)
  have hfe : forward_error_of s st.1 i = forward_error_of s st2.1 i := by
    unfold forward_error_of
    exact vecdot_congr s _ _ i (i + 1) (hclr st.1 st2.1 hv)
  have hvec : ∀ k, k < i + 1 → (wiener_order s n i st).1 k = (wiener_order s n i st2).1 k := by
    intro k hk
    rw [wiener_order_vec, wiener_order_vec, if_pos (by omega), if_pos (by omega), hfe,
      hclr st.1 st2.1 hv k hk, hclr st.1 st2.1 hv (i - k) (by omega)]
  refine ⟨hvec, ?_⟩
  intro k hk
  rw [wiener_order_coeffs, wiener_order_coeffs, if_pos hk, if_pos hk,
    vecdot_congr s _ _ i (i + 1) (hclr st.2 st2.2 hc), hclr st.2 st2.2 hc k hk,
    hvec (i - k) (by omega)]

/-- Whatever the scratch vector and the coefficient buffer held on entry, the recursion
leaves the same first `m + 1` entries in both. -/
theorem wiener_run_agree (s n v c v2 c2 : Buf) (m : Nat) :
    (∀ k, k < m + 1 → (wiener_run s n (m + 1) v c).1 k = (wiener_run s n (m + 1) v2 c2).1 k)
    ∧ (∀ k, k < m + 1 →
        (wiener_run s n (m + 1) v c).2 k = (wiener_run s n (m + 1) v2 c2).2 k) := by
  induction m with
  | zero =>
    constructor
    · intro k hk
      have h0 : k = 0 := by omega
      subst h0
      simp [wiener_run, for_loop, loop]
    · intro k hk
      have h0 : k = 0 := by omega
      subst h0
      simp [wiener_run, for_loop, loop]
  | succ m ih =>
    have hstep : ∀ (v c : Buf), wiener_run s n (m + 1 + 1) v c
        = wiener_order s n (m + 1) (wiener_run s n (m + 1) v c) := by
      intro v c
      unfold wiener_run for_loop
      have e1 : m + 1 + 1 - 1 = (m + 1 - 1) + 1 := by omega
      have e2 : 1 + (m + 1 - 1) = m + 1 := by omega
      rw [e1, loop_succ_last, e2]
    rw [hstep v c, hstep v2 c2]
    exact wiener_order_agree s n (m + 1) _ _ ih.1 ih.2

/-- C15: for `num_taps ≥ 1` the coefficients written by `calc_wiener_coeffs` are the same
whatever the contents and size of the persistent scratch vector, whatever block a
reallocation hands out, and whatever `coeffs` held before the call. -/
theorem calc_wiener_coeffs_deterministic (st st2 : solver_static)
    (fresh fresh2 coeffs coeffs2 signal_corr noise_corr : Buf) (num_taps : Nat)
    (h1 : 1 ≤ num_taps) (j : Nat) (hj : j < num_taps) :
    (calc_wiener_coeffs st fresh coeffs signal_corr noise_corr num_taps).1 j
      = (calc_wiener_coeffs st2 fresh2 coeffs2 signal_corr noise_corr num_taps).1 j := by
  have hagree := (wiener_run_agree signal_corr noise_corr (scratch st fresh num_taps).vec coeffs
    (scratch st2 fresh2 num_taps).vec coeffs2 (num_taps - 1)).2 j (by omega)
  have e : num_taps - 1 + 1 = num_taps := by omega
  rw [e] at hagree
  unfold calc_wiener_coeffs
  rw [if_neg (by omega), if_neg (by omega)]
  exact hagree

theorem calc_wiener_coeffs_deterministic_witness :
    (calc_wiener_coeffs solver_static_init (const_buf 0) (const_buf 0) sig3 noi3 3).1 2
      = (calc_wiener_coeffs used_static (const_buf 5) (const_buf 9) sig3 noi3 3).1 2 :=
  calc_wiener_coeffs_deterministic solver_static_init used_static (const_buf 0) (const_buf 5)
    (const_buf 0) (const_buf 9) sig3 noi3 3 (by decide) 2 (by decide)

/-! ## Construction of the pipeline -/

/-- C16 (as stated): with `num_taps = 2` and `buffer_size = 2` (so `buffer_size ≤ num_taps`)
and successful allocations `create_stream_data` returns a pipeline, ready at
`frame_index = 0`. -/
theorem create_stream_data_accepts_invalid :
    (create_stream_data zero_allocations 2 2).isSome = true
    ∧ (create_stream_data zero_allocations 2 2).map
        (fun sd => (sd.num_taps, sd.buffer_size, sd.frame_index)) = some (2, 2, 0) := by
  decide

/-- C16 (amended): `create_stream_data` does not look at the values of `num_taps` and
`buffer_size`: once the struct is allocated it returns no pipeline exactly when one of its
six buffer allocations fails, and a pipeline it returns carries the given `num_taps` and
`buffer_size` with `frame_index = 0`. -/
theorem create_stream_data_fails_iff (m : allocations) (num_taps buffer_size : Nat)
    (hout : m.out = true) :
    (create_stream_data m num_taps buffer_size = none ↔
      (m.buffer = none ∨ m.wiener_coeffs = none ∨ m.wiener_state = none
        ∨ m.signal_corr = none ∨ m.signal_corr_current = none ∨ m.noise_corr = none))
    ∧ ∀ sd, create_stream_data m num_taps buffer_size = some sd →
        sd.num_taps = num_taps ∧ sd.buffer_size = buffer_size ∧ sd.frame_index = 0 := by
  constructor
  · obtain ⟨o, b, wc, ws, sc, scc, nc⟩ := m
    simp only at hout
    subst hout
    cases b <;> cases wc <;> cases ws <;> cases sc <;> cases scc <;> cases nc <;>
      simp [create_stream_data]
  · intro sd hsd
    have h := create_stream_data_some m num_taps buffer_size sd hsd
    exact ⟨h.2.1, h.2.2.1, h.1⟩

theorem create_stream_data_fails_iff_witness :
    (create_stream_data zero_allocations 2 2 = none ↔
      (zero_allocations.buffer = none ∨ zero_allocations.wiener_coeffs = none
        ∨ zero_allocations.wiener_state = none ∨ zero_allocations.signal_corr = none
        ∨ zero_allocations.signal_corr_current = none ∨ zero_allocations.noise_corr = none)) :=
  (create_stream_data_fails_iff zero_allocations 2 2 rfl).1

/-! ## Index safety of `apply_filter` -/

/-- C17: for `size = 2` and `num_taps = 2` (so `num_taps - 1 ≤ size`) the accesses of
`apply_filter` end with a read of `data` at index `2 ^ 64 - 1`, the wrapped value of
`size - num_taps - 1`, made while writing the new delay line; it is out of bounds. -/
theorem apply_filter_reads_out_of_bounds :
    apply_filter_accesses 2 2
      = [(buffer_id.data, 0), (buffer_id.coeffs, 0), (buffer_id.state, 0), (buffer_id.coeffs, 1),
         (buffer_id.out, 0),
         (buffer_id.data, 1), (buffer_id.coeffs, 0), (buffer_id.data, 0), (buffer_id.coeffs, 1),
         (buffer_id.out, 1),
         (buffer_id.data, 18446744073709551615), (buffer_id.state, 0)]
    ∧ in_bounds 2 2 (buffer_id.data, 18446744073709551615) = false
    ∧ (apply_filter_accesses 2 2).all (in_bounds 2 2) = false := by
  decide!

/-- A loop that only appends entries satisfying `P` to a trace keeps every entry in `P`. -/
theorem for_loop_append_all {α : Type} (P : α → Prop) (lo hi : Nat)
    (body : Nat → List α → List α)
    (h : ∀ i, lo ≤ i → i < hi → ∀ acc : List α, (∀ a, a ∈ acc → P a) →
      ∀ a, a ∈ body i acc → P a)
    (acc0 : List α) (h0 : ∀ a, a ∈ acc0 → P a) :
    ∀ a, a ∈ for_loop lo hi body acc0 → P a := by
  unfold for_loop
  have key : ∀ n, n ≤ hi - lo → ∀ a, a ∈ loop body lo n acc0 → P a := by
    intro n
    induction n with
    | zero =>
      intro _ a ha
      exact h0 a ha
    | succ n ih =>
      intro hn a ha
      rw [loop_succ_last] at ha
      exact h (lo + n) (by omega) (by omega) _ (ih (by omega)) a ha
  exact key (hi - lo) (le_refl _)

theorem all_append_pair {α : Type} (P : α → Prop) (acc : List α) (x y : α)
    (hacc : ∀ a, a ∈ acc → P a) (hx : P x) (hy : P y) : ∀ a, a ∈ acc ++ [x, y] → P a := by
  intro a ha
  simp only [List.mem_append, List.mem_cons, List.mem_singleton, List.not_mem_nil,
    or_false] at ha
  rcases ha with ha | ha | ha
  · exact hacc a ha
  · rw [ha]
    exact hx
  · rw [ha]
    exact hy

theorem all_append_one {α : Type} (P : α → Prop) (acc : List α) (x : α)
    (hacc : ∀ a, a ∈ acc → P a) (hx : P x) : ∀ a, a ∈ acc ++ [x] → P a := by
  intro a ha
  simp only [List.mem_append, List.mem_singleton] at ha
  rcases ha with ha | ha
  · exact hacc a ha
  · rw [ha]
    exact hx

/-- On frames of at least `num_taps + 1` samples every access of `apply_filter` is in
bounds. -/
theorem apply_filter_accesses_in_bounds (size num_taps : Nat) (h1 : 1 ≤ num_taps)
    (hsz : num_taps + 1 ≤ size) (hsize : size < SIZE_MOD) :
    ∀ a, a ∈ apply_filter_accesses size num_taps → in_bounds size num_taps a = true := by
  have hnt : num_taps < SIZE_MOD := by omega
  have hn1 : size_sub num_taps 1 = num_taps - 1 := size_sub_eq _ _ h1 hnt
  unfold apply_filter_accesses
  simp only [hn1]
  apply for_loop_append_all
  · intro i _ hi acc hacc
    apply all_append_pair _ _ _ _ hacc
    · have e : size_add (size_sub (size_sub size num_taps) 1) i = size - num_taps - 1 + i := by
        unfold size_add size_sub SIZE_MOD at *
        omega
      simp only [in_bounds, e, decide_eq_true_eq]
      omega
    · simp only [in_bounds, decide_eq_true_eq]
      exact hi
  · apply for_loop_append_all
    · intro i _ hi acc hacc
      apply all_append_one
      · apply for_loop_append_all
        · intro j _ hj acc2 hacc2
          apply all_append_pair _ _ _ _ hacc2
          · simp only [in_bounds, decide_eq_true_eq]
            omega
          · simp only [in_bounds, decide_eq_true_eq]
            exact hj
        · exact hacc
      · simp only [in_bounds, decide_eq_true_eq]
        exact hi
    · apply for_loop_append_all
      · intro i _ hi acc hacc
        apply all_append_one
        · apply for_loop_append_all
          · intro j hlo hj acc2 hacc2
            apply all_append_pair _ _ _ _ hacc2
            · rw [state_index_eq i j num_taps (by omega) hj hnt]
              simp only [in_bounds, decide_eq_true_eq]
              omega
            · simp only [in_bounds, decide_eq_true_eq]
              exact hj
          · apply for_loop_append_all
            · intro j _ hj acc2 hacc2
              apply all_append_pair _ _ _ _ hacc2
              · simp only [in_bounds, decide_eq_true_eq]
                omega
              · simp only [in_bounds, decide_eq_true_eq]
                omega
            · exact hacc
        · simp only [in_bounds, decide_eq_true_eq]
          omega
      · intro a ha
        exact absurd ha (List.not_mem_nil a)

/-! ## The Filter phase -/

/-- C19: in exact arithmetic, for `num_taps ≥ 1` (within the range `2 ^ 31` of the `int`
index of `abs`), `signal_corr[0] ≠ 0`, no divisor `1 - forward_error²` equal to zero and an
all-zero `noise_corr`, the coefficients written by `calc_wiener_coeffs` are exactly
`[1, 0, ..., 0]`, whatever the other lags of `signal_corr` are. -/
theorem calc_wiener_coeffs_zero_noise (st : solver_static)
    (fresh coeffs signal_corr noise_corr : Buf) (num_taps : Nat)
    (h1 : 1 ≤ num_taps) (hmax : num_taps ≤ 2 ^ 31) (hs0 : signal_corr 0 ≠ 0)
    (_hdiv : ∀ i, 1 ≤ i → i < num_taps →
      1 - forward_error st fresh coeffs signal_corr noise_corr num_taps i ^ 2 ≠ 0)
    (hnoise : ∀ k, k < num_taps → noise_corr k = 0) (j : Nat) (hj : j < num_taps) :
    (calc_wiener_coeffs st fresh coeffs signal_corr noise_corr num_taps).1 j
      = if j = 0 then 1 else 0 := by
  have hid := wiener_loop_identity signal_corr noise_corr (scratch st fresh num_taps).vec coeffs
    hs0 (num_taps - 1) (by omega) (fun k hk => hnoise k (by omega)) j (by omega)
  have e : num_taps - 1 + 1 = num_taps := by omega
  rw [e] at hid
  unfold calc_wiener_coeffs
  rw [if_neg (by omega)]
  exact hid

theorem calc_wiener_coeffs_zero_noise_witness :
    (calc_wiener_coeffs used_static (const_buf 5) (const_buf 9) sig3 (const_buf 0) 3).1 2
      = if 2 = 0 then 1 else 0 :=
  calc_wiener_coeffs_zero_noise used_static (const_buf 5) (const_buf 9) sig3 (const_buf 0) 3
    (by decide) (by decide) (by decide!)
    (by
      intro i h1 h2
      have hcases : i = 1 ∨ i = 2 := by omega
      rcases hcases with h | h <;> subst h <;> decide!)
    (fun _ _ => rfl) 2 (by decide)

/-- The output samples of `apply_filter` as a sum over the taps. -/
theorem apply_filter_out_eq (out data coeffs state : Buf) (size num_taps : Nat)
    (h1 : 1 ≤ num_taps) (hsz : num_taps - 1 ≤ size) (hnt : num_taps < SIZE_MOD)
    (i : Nat) (hi : i < size) :
    (apply_filter out data size coeffs num_taps state).1 i
      = ∑ j in Finset.range num_taps, coeffs j * fir_input data state num_taps ((i : ℤ) - (j : ℤ)) := by
  have hn1 : size_sub num_taps 1 = num_taps - 1 := size_sub_eq _ _ h1 hnt
  unfold apply_filter
  simp only [hn1]
  rw [for_loop, loop_pointwise (fun i _ =>
    for_loop 0 num_taps (fun j y => y + data (i - j) * coeffs j) 0)]
  by_cases hlo : num_taps - 1 ≤ i
  · rw [if_pos (by omega)]
    exact fir_tail_sum data coeffs state num_taps i (by omega)
  · rw [if_neg (by omega)]
    rw [for_loop_pointwise (fun i _ =>
      for_loop (i + 1) num_taps (fun j y =>
          y + state (size_sub (size_add (size_sub i j) num_taps) 1) * coeffs j)
        (for_loop 0 (i + 1) (fun j y => y + data (i - j) * coeffs j) 0))]
    rw [if_pos (by omega)]
    exact fir_head_sum data coeffs state num_taps i (by omega) hnt

/-- The output frame of a Filter-phase callback: `apply_filter` runs on the input frame with
the freshly solved coefficients and the delay line, and the mean is added to its result. -/
theorem filter_branch_output (st : solver_static) (fresh : Buf) (sdata : stream_data)
    (input output : Buf) (frame_count : Nat)
    (h : sdata.frame_index ≥ NUM_FRAMES_DISCARD + NUM_FRAMES_LEARN_NOISE)
    (i : Nat) (hi : i < frame_count) :
    (audio_callback st fresh sdata input output frame_count).output i
      = (apply_filter output input frame_count
          (audio_callback st fresh sdata input output frame_count).sdata.wiener_coeffs
          sdata.num_taps sdata.wiener_state).1 i
        + calc_mean input frame_count := by
  unfold audio_callback
  rw [if_pos h]
  simp only
  rw [for_loop_pointwise (fun _ x => x + calc_mean input frame_count), if_pos hi]

/-- C11: a fresh pipeline with `num_taps = 1` fed 15 frames of silence and then the frame
`[3, 1]` (mean `2`) solves the coefficient `1` and outputs `[5, 3]`: the filter has run on
the input frame itself and the mean has been added on top.  Filtering the mean-subtracted
frame and adding the mean back gives `[3, 1]`. -/
theorem filter_runs_on_raw_input :
    (create_stream_data zero_allocations 1 2).map (fun sd =>
        ((audio_callback
            (run_frames (const_buf 0) silence_then_31 2 15 (solver_static_init, sd)).1
            (const_buf 0)
            (run_frames (const_buf 0) silence_then_31 2 15 (solver_static_init, sd)).2
            frame_31 (const_buf 0) 2).output 0,
         (audio_callback
            (run_frames (const_buf 0) silence_then_31 2 15 (solver_static_init, sd)).1
            (const_buf 0)
            (run_frames (const_buf 0) silence_then_31 2 15 (solver_static_init, sd)).2
            frame_31 (const_buf 0) 2).output 1,
         (audio_callback
            (run_frames (const_buf 0) silence_then_31 2 15 (solver_static_init, sd)).1
            (const_buf 0)
            (run_frames (const_buf 0) silence_then_31 2 15 (solver_static_init, sd)).2
            frame_31 (const_buf 0) 2).sdata.wiener_coeffs 0))
      = some (5, 3, 1)
    ∧ calc_mean frame_31 2 = 2
    ∧ 2 + ∑ j in Finset.range 1,
          (1 : ℚ) * fir_input (mean_removed frame_31 2) (const_buf 0) 1 (((0 : Nat) : ℤ) - (j : ℤ))
        = 3
    ∧ 2 + ∑ j in Finset.range 1,
          (1 : ℚ) * fir_input (mean_removed frame_31 2) (const_buf 0) 1 (((1 : Nat) : ℤ) - (j : ℤ))
        = 1 := by
  decide!

/-- Through the Discard and LearnNoise frames of a run that starts at `frame_index = 0` the
delay line and `num_taps` stay as they were. -/
theorem run_frames_keeps_state (fresh : Buf) (frames : Nat → Buf) (frame_count : Nat)
    (w : solver_static × stream_data) (h0 : w.2.frame_index = 0) (n : Nat)
    (hn : n ≤ NUM_FRAMES_DISCARD + NUM_FRAMES_LEARN_NOISE) :
    (run_frames fresh frames frame_count n w).2.wiener_state = w.2.wiener_state
    ∧ (run_frames fresh frames frame_count n w).2.num_taps = w.2.num_taps := by
  have hK : NUM_FRAMES_DISCARD = 10 := rfl
  have hL : NUM_FRAMES_LEARN_NOISE = 5 := rfl
  induction n with
  | zero => exact ⟨rfl, rfl⟩
  | succ n ih =>
    have ih2 := ih (by omega)
    have hidx := run_frames_counter_fresh fresh frames frame_count n w h0
      (by unfold SIZE_MOD; omega)
    rw [run_frames]
    constructor
    · rw [← ih2.1]
      exact audio_callback_keeps_state _ fresh _ (frames n) (fun _ => 0) frame_count
        (by rw [hidx]; omega)
    · rw [← ih2.2]
      exact (audio_callback_counter _ fresh _ (frames n) (fun _ => 0) frame_count).2.2.1

/-- With an all-zero delay line the extended input of the FIR formula is zero at negative
indices. -/
theorem fir_input_zero_state (data state : Buf) (num_taps i j : Nat) (hj : j < num_taps)
    (hzero : ∀ k, k < num_taps - 1 → state k = 0) :
    fir_input data state num_taps ((i : ℤ) - (j : ℤ)) = if j ≤ i then data (i - j) else 0 := by
  unfold fir_input
  by_cases hji : j ≤ i
  · have h0 : (0 : ℤ) ≤ (i : ℤ) - (j : ℤ) := by omega
    have h1 : ((i : ℤ) - (j : ℤ)).toNat = i - j := by omega
    rw [if_pos h0, if_pos hji, h1]
  · have h0 : ¬ ((0 : ℤ) ≤ (i : ℤ) - (j : ℤ)) := by omega
    rw [if_neg h0, if_neg hji]
    exact hzero _ (by omega)

/-- C20: `audio_callback` leaves `wiener_state` unchanged in the Discard and LearnNoise
phases; a freshly constructed pipeline therefore reaches
`frame_index = NUM_FRAMES_DISCARD + NUM_FRAMES_LEARN_NOISE` with the all-zero delay line
written at construction, and the first Filter frame is filtered with an all-zero history:
its output sample `i` is the mean plus the sum of `coeffs[j] * input[i - j]` over the taps
`j ≤ i` only. -/
theorem first_filter_frame_zero_history (m : allocations) (num_taps buffer_size : Nat)
    (sd : stream_data) (hsd : create_stream_data m num_taps buffer_size = some sd)
    (h1 : 1 ≤ num_taps) (hnt : num_taps < SIZE_MOD) (st : solver_static) (fresh : Buf)
    (frames : Nat → Buf) (input output : Buf) (frame_count : Nat)
    (hfc : num_taps - 1 ≤ frame_count) :
    (∀ (st2 : solver_static) (sdata : stream_data) (input2 output2 : Buf),
        sdata.frame_index < NUM_FRAMES_DISCARD + NUM_FRAMES_LEARN_NOISE →
        (audio_callback st2 fresh sdata input2 output2 frame_count).sdata.wiener_state
          = sdata.wiener_state)
    ∧ (run_frames fresh frames frame_count (NUM_FRAMES_DISCARD + NUM_FRAMES_LEARN_NOISE)
        (st, sd)).2.frame_index = NUM_FRAMES_DISCARD + NUM_FRAMES_LEARN_NOISE
    ∧ (∀ k, k < num_taps - 1 →
        (run_frames fresh frames frame_count (NUM_FRAMES_DISCARD + NUM_FRAMES_LEARN_NOISE)
          (st, sd)).2.wiener_state k = 0)
    ∧ ∀ i, i < frame_count →
        (audio_callback
            (run_frames fresh frames frame_count (NUM_FRAMES_DISCARD + NUM_FRAMES_LEARN_NOISE)
              (st, sd)).1 fresh
            (run_frames fresh frames frame_count (NUM_FRAMES_DISCARD + NUM_FRAMES_LEARN_NOISE)
              (st, sd)).2 input output frame_count).output i
          = calc_mean input frame_count
            + ∑ j in Finset.range num_taps,
                (audio_callback
                  (run_frames fresh frames frame_count
                    (NUM_FRAMES_DISCARD + NUM_FRAMES_LEARN_NOISE) (st, sd)).1 fresh
                  (run_frames fresh frames frame_count
                    (NUM_FRAMES_DISCARD + NUM_FRAMES_LEARN_NOISE) (st, sd)).2
                  input output frame_count).sdata.wiener_coeffs j
                * (if j ≤ i then input (i - j) else 0) := by
  have hfresh := create_stream_data_some m num_taps buffer_size sd hsd
  have hn1 : size_sub num_taps 1 = num_taps - 1 := size_sub_eq _ _ h1 hnt
  have hidx := run_frames_counter_fresh fresh frames frame_count
    (NUM_FRAMES_DISCARD + NUM_FRAMES_LEARN_NOISE) (st, sd) hfresh.1 (by decide)
  have hkeep := run_frames_keeps_state fresh frames frame_count (st, sd) hfresh.1
    (NUM_FRAMES_DISCARD + NUM_FRAMES_LEARN_NOISE) (le_refl _)
  have hzero : ∀ k, k < num_taps - 1 →
      (run_frames fresh frames frame_count (NUM_FRAMES_DISCARD + NUM_FRAMES_LEARN_NOISE)
        (st, sd)).2.wiener_state k = 0 := by
    intro k hk
    rw [hkeep.1]
    exact hfresh.2.2.2.1 k (by rw [hn1]; exact hk)
  have htaps : (run_frames fresh frames frame_count
      (NUM_FRAMES_DISCARD + NUM_FRAMES_LEARN_NOISE) (st, sd)).2.num_taps = num_taps := by
    rw [hkeep.2]
    exact hfresh.2.1
  refine ⟨?_, hidx, hzero, ?_⟩
  · intro st2 sdata input2 output2 hlt
    exact audio_callback_keeps_state st2 fresh sdata input2 output2 frame_count hlt
  · clear hkeep
    generalize run_frames fresh frames frame_count
      (NUM_FRAMES_DISCARD + NUM_FRAMES_LEARN_NOISE) (st, sd) = w at hidx hzero htaps ⊢
    intro i hi
    have hsum : ∀ c : Buf,
        ∑ j in Finset.range num_taps,
            c j * fir_input input w.2.wiener_state num_taps ((i : ℤ) - (j : ℤ))
          = ∑ j in Finset.range num_taps, c j * (if j ≤ i then input (i - j) else 0) := by
      intro c
      apply Finset.sum_congr rfl
      intro j hj
      rw [fir_input_zero_state input _ num_taps i j (Finset.mem_range.mp hj) hzero]
    rw [filter_branch_output w.1 fresh w.2 input output frame_count (by rw [hidx]) i hi, htaps,
      apply_filter_out_eq output input _ _ frame_count num_taps h1 hfc hnt i hi, hsum, add_comm]

theorem first_filter_frame_zero_history_witness :
    (run_frames (const_buf 0) (fun _ => ramp) 8
        (NUM_FRAMES_DISCARD + NUM_FRAMES_LEARN_NOISE)
        (solver_static_init, fresh_pipeline_3_8)).2.wiener_state 1 = 0
    ∧ (audio_callback
          (run_frames (const_buf 0) (fun _ => ramp) 8
            (NUM_FRAMES_DISCARD + NUM_FRAMES_LEARN_NOISE)
            (solver_static_init, fresh_pipeline_3_8)).1 (const_buf 0)
          (run_frames (const_buf 0) (fun _ => ramp) 8
            (NUM_FRAMES_DISCARD + NUM_FRAMES_LEARN_NOISE)
            (solver_static_init, fresh_pipeline_3_8)).2 block_A (const_buf 0) 8).output 1
        = calc_mean block_A 8
          + ∑ j in Finset.range 3,
              (audio_callback
                (run_frames (const_buf 0) (fun _ => ramp) 8
                  (NUM_FRAMES_DISCARD + NUM_FRAMES_LEARN_NOISE)
                  (solver_static_init, fresh_pipeline_3_8)).1 (const_buf 0)
                (run_frames (const_buf 0) (fun _ => ramp) 8
                  (NUM_FRAMES_DISCARD + NUM_FRAMES_LEARN_NOISE)
                  (solver_static_init, fresh_pipeline_3_8)).2
                block_A (const_buf 0) 8).sdata.wiener_coeffs j
              * (if j ≤ 1 then block_A (1 - j) else 0) :=
  ⟨(first_filter_frame_zero_history zero_allocations 3 8 fresh_pipeline_3_8 rfl (by decide)
      (by decide) solver_static_init (const_buf 0) (fun _ => ramp) block_A (const_buf 0) 8
      (by decide)).2.2.1 1 (by decide),
   (first_filter_frame_zero_history zero_allocations 3 8 fresh_pipeline_3_8 rfl (by decide)
      (by decide) solver_static_init (const_buf 0) (fun _ => ramp) block_A (const_buf 0) 8
      (by decide)).2.2.2 1 (by decide)⟩

end Denoise
